import Mathlib

/-!
Verification development for the cproxy proxy server (src/index.ts).

The proxy accepts Anthropic-format ("Format A") requests on /v1/messages,
translates them to OpenAI-format ("Format B") requests, forwards them, and
translates the response (complete or streaming) back.  This file gives a
shallow embedding of the pure translation logic:

* `removeUriFormat`      — the recursive JSON-schema sanitizer;
* `normalizeContent`, `buildMessages` — the request translator;
* `translateNonStream`   — the non-streaming response translator;
* `processFrame` / `runLines` — the streaming re-encoder state machine.

JavaScript strings are modelled as Lean `String` (character based), JS
objects as ordered association lists, absent/null fields as `Option`, and
JS truthiness is made explicit at each use site.  `JSON.parse` of a raw
data line is modelled at the boundary: the stream is a list of already
classified lines (`Line.frame`, `Line.malformed`, `Line.done`), and the
non-streaming translator takes the parser as an explicit fallible
function argument.
-/

namespace Cproxy

/-- JSON-like values: the dynamic values the proxy's translation code
manipulates.  Objects are ordered association lists, as produced by a
JS JSON parse (keys unique, insertion ordered). -/
inductive JSON where
  | null : JSON
  | bool (b : Bool) : JSON
  | num (n : Int) : JSON
  | str (s : String) : JSON
  | arr (elems : List JSON) : JSON
  | obj (fields : List (String × JSON)) : JSON

/-- First-match key lookup in a JSON object's field list (JS property read). -/
def jlookup : List (String × JSON) → String → Option JSON
  | [], _ => none
  | p :: rest, k => if p.1 = k then some p.2 else jlookup rest k

/-- Is an optional JSON value the given string literal (JS `=== 'lit'`)? -/
def isStrVal (v : Option JSON) (s : String) : Bool :=
  match v with
  | some (.str t) => t == s
  | _ => false

/-- Test of `schema.type === 'string' && schema.format === 'uri'`. -/
def isUriObj (fields : List (String × JSON)) : Bool :=
  isStrVal (jlookup fields "type") "string" && isStrVal (jlookup fields "format") "uri"

/-- Pair `("0", x0), ("1", x1), …` : the object a JS `for (k in arr)` copy
loop builds from an array value. -/
def indexFields (n : Nat) : List JSON → List (String × JSON)
  | [] => []
  | x :: xs => (toString n, x) :: indexFields (n + 1) xs

mutual

/-- `removeUriFormat` (src/index.ts:191-224).  Recursively walks a JSON
value; an object with `type:"string"` and `format:"uri"` has its `format`
key removed and its remaining members returned unprocessed; arrays map
recursively; every other object maps `removeUriFormat` over its member
values, except that a `properties` member whose value is `typeof object`
(object, array or null in JS) is rebuilt key-by-key by a `for…in` loop. -/
def removeUriFormat : JSON → JSON
  | .obj fields =>
      if isUriObj fields then
        .obj (fields.filter fun p => p.1 ≠ "format")
      else
        .obj (sanFields fields)
  | .arr xs => .arr (sanList xs)
  | j => j

/-- Elementwise `removeUriFormat` over an array (`schema.map(removeUriFormat)`). -/
def sanList : List JSON → List JSON
  | [] => []
  | x :: xs => removeUriFormat x :: sanList xs

/-- The generic `for (key in schema)` copy loop: every member value is
sanitized; a `properties` member gets the dedicated per-key treatment.
The `items`, `additionalProperties` and `anyOf`/`allOf`/`oneOf` cases of
the source reduce to exactly the generic `removeUriFormat(schema[key])`
call, so they need no separate equation. -/
def sanFields : List (String × JSON) → List (String × JSON)
  | [] => []
  | (k, v) :: rest =>
      (k, if k = "properties" then sanProps v else removeUriFormat v) :: sanFields rest

/-- The `properties` member handling: if the value is `typeof 'object'`
(JS: object, array, or null) a fresh object is built by iterating its
enumerable keys and sanitizing each member value; otherwise the value
falls to the generic branch (primitives sanitize to themselves). -/
def sanProps : JSON → JSON
  | .obj fs => .obj (sanPropFields fs)
  | .arr xs => .obj (indexFields 0 (sanList xs))
  | .null => .obj []
  | j => j

/-- Per-key sanitization of a `properties` object's members. -/
def sanPropFields : List (String × JSON) → List (String × JSON)
  | [] => []
  | (k, v) :: rest => (k, removeUriFormat v) :: sanPropFields rest

end

mutual

/-- Number of `format` keys anywhere in a JSON value (observer used to
separate sanitizer outputs). -/
def countFormat : JSON → Nat
  | .obj fields => countFormatFields fields
  | .arr xs => countFormatList xs
  | _ => 0

/-- `countFormat` over array elements. -/
def countFormatList : List JSON → Nat
  | [] => 0
  | x :: xs => countFormat x + countFormatList xs

/-- `countFormat` over object fields. -/
def countFormatFields : List (String × JSON) → Nat
  | [] => 0
  | (k, v) :: rest =>
      (if k = "format" then 1 else 0) + countFormat v + countFormatFields rest

end

mutual

/-- Does any object anywhere in the value still match
`type:"string" && format:"uri"`? -/
def containsUri : JSON → Bool
  | .obj fields => isUriObj fields || containsUriFields fields
  | .arr xs => containsUriList xs
  | _ => false

/-- `containsUri` over array elements. -/
def containsUriList : List JSON → Bool
  | [] => false
  | x :: xs => containsUri x || containsUriList xs

/-- `containsUri` over object field values. -/
def containsUriFields : List (String × JSON) → Bool
  | [] => false
  | (_, v) :: rest => containsUri v || containsUriFields rest

end

/-- Atomic (non-array, non-object) JSON values. -/
def atomicJ : JSON → Bool
  | .arr _ => false
  | .obj _ => false
  | _ => true

/-- All members of an object are atomic. -/
def atomicFields : List (String × JSON) → Bool
  | [] => true
  | (_, v) :: rest => atomicJ v && atomicFields rest

/-- Is the value JSON null? -/
def isNullJ : JSON → Bool
  | .null => true
  | _ => false

/-- Members of a uri-matching object that survive a second pass
unchanged: atomic values, and additionally non-null under a `properties`
key (the `for…in` rebuild turns a null `properties` into `\x7b\x7d`). -/
def uriFieldsOk : List (String × JSON) → Bool
  | [] => true
  | (k, v) :: rest =>
      (if k = "properties" then atomicJ v && !isNullJ v else atomicJ v)
        && uriFieldsOk rest

mutual

/-- Schemas on which the sanitizer behaves well: every object matching the
uri rule has only atomic members (so the members it returns unprocessed
need no processing); every `properties` member is an object that does not
itself match the uri pattern (with well-behaved schema values) or a
primitive; all other containers recurse. -/
def uriOk : JSON → Bool
  | .obj fields =>
      if isUriObj fields then uriFieldsOk fields else uriOkFields fields
  | .arr xs => uriOkList xs
  | _ => true

/-- `uriOk` over array elements. -/
def uriOkList : List JSON → Bool
  | [] => true
  | x :: xs => uriOk x && uriOkList xs

/-- `uriOk` over object fields, `properties` members treated per-key. -/
def uriOkFields : List (String × JSON) → Bool
  | [] => true
  | (k, v) :: rest =>
      (if k = "properties" then uriOkProps v else uriOk v) && uriOkFields rest

/-- Well-behavedness of a `properties` member. -/
def uriOkProps : JSON → Bool
  | .obj fs => !isUriObj fs && uriOkValues fs
  | .arr _ => false
  | .null => false
  | _ => true

/-- `uriOk` over a `properties` object's member values. -/
def uriOkValues : List (String × JSON) → Bool
  | [] => true
  | (_, v) :: rest => uriOk v && uriOkValues rest

end

mutual

/-- Values the sanitizer leaves exactly unchanged: no object matches the
uri rule, and every `properties` member is an object of untouched values
or a primitive (the JS `for…in` rebuild turns arrays and null into
objects, so those shapes are excluded). -/
def untouched : JSON → Bool
  | .obj fields => !isUriObj fields && untouchedFields fields
  | .arr xs => untouchedList xs
  | _ => true

/-- `untouched` over array elements. -/
def untouchedList : List JSON → Bool
  | [] => true
  | x :: xs => untouched x && untouchedList xs

/-- `untouched` over object fields, with the `properties` shape condition. -/
def untouchedFields : List (String × JSON) → Bool
  | [] => true
  | (k, v) :: rest =>
      (if k = "properties" then propsUntouched v else untouched v)
        && untouchedFields rest

/-- Shape condition for a `properties` member that survives unchanged. -/
def propsUntouched : JSON → Bool
  | .obj fs => untouchedPropFields fs
  | .arr _ => false
  | .null => false
  | _ => true

/-- `untouched` over a `properties` object's member values. -/
def untouchedPropFields : List (String × JSON) → Bool
  | [] => true
  | (_, v) :: rest => untouched v && untouchedPropFields rest

end

-- ==================== JS STRING HELPERS ====================

/-- Split a character list at every occurrence of a separator character:
`n` separators yield `n + 1` pieces, so the empty input yields one empty
piece — exactly JS `String.prototype.split` with a single-character
separator. -/
def splitChars (sep : Char) : List Char → List (List Char)
  | [] => [[]]
  | c :: rest =>
      let r := splitChars sep rest
      if c = sep then [] :: r
      else
        match r with
        | h :: t => (c :: h) :: t
        | [] => [[c]]

/-- JS `s.split(sep)` for a one-character separator. -/
def jsSplit (s : String) (sep : Char) : List String :=
  (splitChars sep s.data).map (fun l => ⟨l⟩)

/-- `s.split(' ').length`: the token-count estimate the proxy uses in
place of a tokenizer (splitting on the single space character; an empty
string yields one piece, as in JS). -/
def wordCount (s : String) : Nat :=
  (jsSplit s ' ').length

/-- `content?.split(' ').length || 0` on an optional string. -/
def optWordCount : Option String → Nat
  | some s => wordCount s
  | none => 0

/-- `s.substring(n)` in JS (character based): drop the first `n`
characters. -/
def jsSubstring (s : String) (n : Nat) : String :=
  ⟨s.data.drop n⟩

/-- JS `a || b` for strings where `a` may be absent: an absent or empty
left operand falls through to the right. -/
def jsOrS (a : Option String) (b : String) : String :=
  match a with
  | some s => if s = "" then b else s
  | none => b

/-- JS `a || b` for two optional strings (used where the result may stay
absent, e.g. `toolResult.text || toolResult.content`). -/
def jsOrOpt (a b : Option String) : Option String :=
  match a with
  | some s => if s = "" then b else some s
  | none => b

/-- JS truthiness of an optional string (absent, or present and empty,
are falsy). -/
def truthyS : Option String → Bool
  | some s => s ≠ ""
  | none => false

-- ==================== REQUEST TRANSLATOR ====================

/-- An item of an array-shaped `content` value, as read by
`normalizeContent`: only its `text`/`content` members are consulted. -/
structure NormItem where
  text : Option String
  content : Option String

/-- A dynamic value passed to `normalizeContent`: a plain string, an
array of items, or anything else. -/
inductive NormInput where
  | str (s : String)
  | items (l : List NormItem)
  | other

/-- `normalizeContent` (src/index.ts:177-186): a string is returned
directly; an array maps each item to `item.text || item.content || ''`,
filters out falsy (empty) entries, joins with single spaces, and an empty
join becomes null; anything else is null. -/
def normalizeContent : NormInput → Option String
  | .str s => some s
  | .items l =>
      let joined :=
        String.intercalate " "
          ((l.map (fun it => jsOrS it.text (jsOrS it.content ""))).filter (fun s => s ≠ ""))
      if joined = "" then none else some joined
  | .other => none

/-- A Format-A system entry: `sysMsg.text || sysMsg.content` feeds
`normalizeContent`. -/
structure SysEntry where
  text : Option String
  content : Option NormInput

/-- A Format-A content block, modelled as the dynamic record the source
inspects: a `type` tag plus every member any branch reads. -/
structure ABlock where
  type : String
  id : String := ""
  name : String := ""
  input : JSON := .null
  tool_use_id : String := ""
  text : Option String := none
  content : Option String := none

/-- A Format-A message's `content`: a plain string, an array of blocks,
or anything else. -/
inductive AContent where
  | str (s : String)
  | blocks (l : List ABlock)
  | other

/-- A Format-A message. -/
structure AMessage where
  role : String
  content : AContent

/-- The innermost `function` record of the outbound tool-call shape the
translator builds (src/index.ts:258-261). -/
structure OAFnInner where
  name : String
  parameters : JSON

/-- The `function` member of an outbound tool call (src/index.ts:255-264):
the source nests a second function record and duplicates the name. -/
structure OAFn where
  type : String
  id : String
  function : OAFnInner
  name : String
  arguments : String

/-- An outbound (Format-B) tool-call entry. -/
structure OpenAIToolCall where
  id : String
  function : OAFn

/-- Serialization of a string body: escape backslash and double quote. -/
def escapeStr (s : String) : String :=
  ⟨s.data.foldr (fun c acc =>
    if c = '"' then '\\' :: '"' :: acc
    else if c = '\\' then '\\' :: '\\' :: acc
    else c :: acc) []⟩

mutual

/-- `JSON.stringify` with default options, used for a tool call's
`arguments` (compact separators, quote and backslash escaped). -/
def jsonStringify : JSON → String
  | .null => "null"
  | .bool b => if b then "true" else "false"
  | .num n => toString n
  | .str s => "\"" ++ escapeStr s ++ "\""
  | .arr xs => "[" ++ String.intercalate "," (stringifyList xs) ++ "]"
  | .obj fs =>
      "\x7b" ++ String.intercalate "," (stringifyFields fs) ++ "\x7d"

/-- Serialized array elements. -/
def stringifyList : List JSON → List String
  | [] => []
  | x :: xs => jsonStringify x :: stringifyList xs

/-- Serialized object members. -/
def stringifyFields : List (String × JSON) → List String
  | [] => []
  | (k, v) :: rest => ("\"" ++ escapeStr k ++ "\":" ++ jsonStringify v) :: stringifyFields rest

end

/-- An outbound (Format-B) chat message. -/
structure OpenAIMessage where
  role : String
  content : Option String := none
  tool_calls : Option (List OpenAIToolCall) := none
  tool_call_id : Option String := none

/-- System entries → leading Format-B system messages
(src/index.ts:236-246): one per entry whose normalized content is truthy. -/
def systemMessages : List SysEntry → List OpenAIMessage
  | [] => []
  | e :: rest =>
      let normalized := normalizeContent (match e.text with
        | some t => if t = "" then (e.content.getD (.str "")) else .str t
        | none => e.content.getD (.str ""))
      (if truthyS normalized then
        [{ role := "system", content := normalized }]
      else []) ++ systemMessages rest

/-- The tool-call entries built from a message's `tool_use` blocks
(src/index.ts:251-265). -/
def toolCallsOf (blocks : List ABlock) : List OpenAIToolCall :=
  (blocks.filter (fun b => b.type = "tool_use")).map fun b =>
    { id := b.id
      function :=
        { type := "function"
          id := b.id
          function := { name := b.name, parameters := b.input }
          name := b.name
          arguments := jsonStringify b.input } }

/-- The follow-up `tool` messages built from a message's `tool_result`
blocks (src/index.ts:273-282). -/
def toolResultMessages (blocks : List ABlock) : List OpenAIMessage :=
  (blocks.filter (fun b => b.type = "tool_result")).map fun b =>
    { role := "tool"
      content := jsOrOpt b.text b.content
      tool_call_id := some b.tool_use_id }

/-- The per-message translation step (src/index.ts:250-283): build tool
calls from array content; normalize string content (array content text is
dropped — the source passes `''`); append the message only if it has
content or tool calls; then append one `tool` message per `tool_result`
block. -/
def translateMessage (msg : AMessage) : List OpenAIMessage :=
  let blocks := match msg.content with
    | .blocks l => l
    | _ => []
  let toolCalls := toolCallsOf blocks
  let normalized := normalizeContent (match msg.content with
    | .str s => .str s
    | _ => .str "")
  let content := if truthyS normalized then normalized else none
  let base : List OpenAIMessage :=
    if content.isSome || !toolCalls.isEmpty then
      [{ role := msg.role
         content := content
         tool_calls := if !toolCalls.isEmpty then some toolCalls else none }]
    else []
  base ++ toolResultMessages blocks

/-- The outbound `messages` array (src/index.ts:234-284): system messages
first, then the translated conversation messages. -/
def buildMessages (system : Option (List SysEntry)) (msgs : Option (List AMessage)) :
    List OpenAIMessage :=
  (match system with
    | some entries => systemMessages entries
    | none => []) ++
  (match msgs with
    | some l => l.foldr (fun m acc => translateMessage m ++ acc) []
    | none => [])

-- ==================== NON-STREAMING RESPONSE TRANSLATOR ====================

/-- `mapStopReason` (src/index.ts:163-170). -/
def mapStopReason : Option String → String
  | some "tool_calls" => "tool_use"
  | some "stop" => "end_turn"
  | some "length" => "max_tokens"
  | _ => "end_turn"

/-- Backend-reported usage counts. -/
structure OAUsage where
  prompt_tokens : Nat
  completion_tokens : Nat
deriving DecidableEq

/-- A backend tool call in a complete (non-streaming) response; only
`id`, `function.name` and `function.arguments` are read. -/
structure RespToolCall where
  id : String
  name : String
  arguments : String

/-- The message of a backend choice. -/
structure RespMessage where
  content : Option String
  tool_calls : Option (List RespToolCall)

/-- One backend choice. -/
structure RespChoice where
  finish_reason : Option String
  message : RespMessage

/-- A complete backend (Format-B) response body. -/
structure OpenAIResponse where
  id : Option String
  error : Option String
  choices : List RespChoice
  usage : Option OAUsage

/-- A Format-A response content block (the `input` of a `tool_use` block
is the value produced by `JSON.parse` of the argument string). -/
inductive RContent where
  | text (s : String)
  | tool_use (id name : String) (input : JSON)

/-- The Format-A usage object of a non-streaming response. -/
structure AUsage where
  input_tokens : Nat
  output_tokens : Nat
deriving DecidableEq

/-- The Format-A response the proxy returns on the non-streaming path. -/
structure AnthropicResponse where
  content : List RContent
  id : String
  model : String
  role : String
  stop_reason : String
  stop_sequence : Option String
  type : String
  usage : AUsage

/-- `JSON.parse` each tool call's arguments into a `tool_use` block;
any parse failure throws (src/index.ts:359-364). -/
def toolUseBlocks (parse : String → Option JSON) :
    List RespToolCall → Except String (List RContent)
  | [] => .ok []
  | tc :: rest =>
      match parse tc.arguments with
      | none => .error "Unexpected token in JSON"
      | some input => do
          let tail ← toolUseBlocks parse rest
          pure (.tool_use tc.id tc.name input :: tail)

/-- The non-streaming response translator (src/index.ts:330-382).
`parse` models the runtime `JSON.parse`; `freshId` models the random
message id generated when the backend supplies none; `modelName` is the
outbound model identifier.  Throws (`Except.error`) on a backend-reported
error field, on an empty choice list, and on unparsable tool arguments. -/
def translateNonStream (parse : String → Option JSON) (freshId modelName : String)
    (messages : List OpenAIMessage) (data : OpenAIResponse) :
    Except String AnthropicResponse :=
  match data.error with
  | some msg => .error msg
  | none =>
    match data.choices with
    | [] => .error "No choices in OpenAI response"
    | choice :: _ =>
      let openaiMessage := choice.message
      let stopReason := mapStopReason choice.finish_reason
      let toolCalls := openaiMessage.tool_calls.getD []
      let messageId := match data.id with
        | some i => i.replace "chatcmpl" "msg"
        | none => freshId
      do
        let toolBlocks ← toolUseBlocks parse toolCalls
        pure
          { content := .text (openaiMessage.content.getD "") :: toolBlocks
            id := messageId
            model := modelName
            role := "assistant"
            stop_reason := stopReason
            stop_sequence := none
            type := "message"
            usage :=
              { input_tokens :=
                  match data.usage with
                  | some u => u.prompt_tokens
                  | none =>
                      messages.foldl (fun acc m => acc + optWordCount m.content) 0
                output_tokens :=
                  match data.usage with
                  | some u => u.completion_tokens
                  | none => optWordCount openaiMessage.content } }

-- ==================== STREAMING RE-ENCODER ====================

/-- One entry of a streamed frame's `delta.tool_calls` array; `index` is
`none` when the backend omits it (or sends null). -/
structure ToolCallFrag where
  index : Option Nat
  id : String := ""
  name : String := ""
  arguments : Option String := none
deriving DecidableEq

/-- The `choices[0].delta` of a streamed frame.  A present `tool_calls`
array is truthy in JS even when empty, so it is `Option (List _)`, not a
plain list. -/
structure Delta where
  tool_calls : Option (List ToolCallFrag) := none
  content : Option String := none
  reasoning : Option String := none
deriving DecidableEq

/-- A successfully JSON-parsed streamed frame: an optional embedded
error, optional usage, and the first choice's delta (absent when
`choices` is empty or carries no delta). -/
structure Frame where
  error : Option String := none
  usage : Option OAUsage := none
  delta : Option Delta := none
deriving DecidableEq

/-- The Format-A server-sent events the re-encoder emits, with the
payload members the claims are about. -/
inductive SSEvent where
  | message_start
  | ping
  | content_block_start_text (index : Nat)
  | content_block_start_tool (index : Nat) (id name : String)
  | content_block_delta_text (index : Nat) (text : String)
  | content_block_delta_thinking (index : Nat) (thinking : String)
  | content_block_delta_json (index : Nat) (partial_json : String)
  | content_block_stop (index : Nat)
  | message_delta (stop_reason : String) (output_tokens : Nat)
  | message_stop
deriving DecidableEq

/-- The per-request `streamingState` (src/index.ts:422-430).  The
tool-call accumulator models the JS object keyed by numeric index: an
association list kept in ascending key order, matching `for…in`
enumeration order of integer-like keys. -/
structure SState where
  accumulatedContent : String := ""
  accumulatedReasoning : String := ""
  usage : Option OAUsage := none
  textBlockStarted : Bool := false
  encounteredToolCall : Bool := false
  toolCallAccumulators : List (Nat × String) := []
deriving DecidableEq

/-- The initial streaming state. -/
def initState : SState := {}

/-- Lookup in the tool-argument accumulator
(`streamingState.toolCallAccumulators[idx]`). -/
def lookupAcc : List (Nat × String) → Nat → Option String
  | [], _ => none
  | p :: rest, i => if p.1 = i then some p.2 else lookupAcc rest i

/-- Assignment `toolCallAccumulators[idx] = v` on the ordered-key model:
insert at the ascending position, or overwrite an existing key. -/
def setAcc (i : Nat) (v : String) : List (Nat × String) → List (Nat × String)
  | [] => [(i, v)]
  | p :: rest =>
      if i < p.1 then (i, v) :: p :: rest
      else if i = p.1 then (i, v) :: rest
      else p :: setAcc i v rest

/-- One iteration of the `for (const toolCall of delta.tool_calls)` loop
(src/index.ts:506-538): mark the tool-call flag, default a falsy index to
0, open the block on first sight of the index, then diff the cumulative
argument string and emit only the newly appended suffix. -/
def processToolCall (st : SState) (tc : ToolCallFrag) : SState × List SSEvent :=
  let st := { st with encounteredToolCall := true }
  let idx := tc.index.getD 0
  let startStep : SState × List SSEvent :=
    match lookupAcc st.toolCallAccumulators idx with
    | none =>
        ({ st with toolCallAccumulators := setAcc idx "" st.toolCallAccumulators },
          [.content_block_start_tool idx tc.id tc.name])
    | some _ => (st, [])
  let st := startStep.1
  let newArgs := tc.arguments.getD ""
  let oldArgs := (lookupAcc st.toolCallAccumulators idx).getD ""
  if oldArgs.length < newArgs.length then
    ({ st with toolCallAccumulators := setAcc idx newArgs st.toolCallAccumulators },
      startStep.2 ++ [.content_block_delta_json idx (jsSubstring newArgs oldArgs.length)])
  else
    (st, startStep.2)

/-- The whole `for…of` loop over a frame's tool-call deltas. -/
def processToolCalls (st : SState) : List ToolCallFrag → SState × List SSEvent
  | [] => (st, [])
  | tc :: rest =>
      let p := processToolCall st tc
      let q := processToolCalls p.1 rest
      (q.1, p.2 ++ q.2)

/-- Handling of one successfully parsed, non-error frame
(src/index.ts:499-583): store usage if present (last write wins), then
dispatch on the delta — a present `tool_calls` array takes the tool
branch (even when empty), else truthy `content` streams a text delta,
else truthy `reasoning` streams a thinking delta, sharing the single
index-0 text-block flag. -/
def processFrame (st : SState) (f : Frame) : SState × List SSEvent :=
  let st := match f.usage with
    | some u => { st with usage := some u }
    | none => st
  match f.delta with
  | none => (st, [])
  | some d =>
    match d.tool_calls with
    | some tcs => processToolCalls st tcs
    | none =>
      if truthyS d.content then
        let text := d.content.getD ""
        let startEvs : List SSEvent :=
          if st.textBlockStarted then [] else [.content_block_start_text 0]
        ({ st with textBlockStarted := true
                   accumulatedContent := st.accumulatedContent ++ text },
          startEvs ++ [.content_block_delta_text 0 text])
      else if truthyS d.reasoning then
        let text := d.reasoning.getD ""
        let startEvs : List SSEvent :=
          if st.textBlockStarted then [] else [.content_block_start_text 0]
        ({ st with textBlockStarted := true
                   accumulatedReasoning := st.accumulatedReasoning ++ text },
          startEvs ++ [.content_block_delta_thinking 0 text])
      else (st, [])

/-- Finalization on the `[DONE]` sentinel (src/index.ts:457-489): close
the open blocks, emit one `message_delta` with the mapped stop reason and
the usage fallback, then `message_stop`. -/
def finalize (st : SState) : List SSEvent :=
  (if st.encounteredToolCall then
    st.toolCallAccumulators.map (fun p => SSEvent.content_block_stop p.1)
  else if st.textBlockStarted then
    [SSEvent.content_block_stop 0]
  else []) ++
  [SSEvent.message_delta
      (if st.encounteredToolCall then "tool_use" else "end_turn")
      (match st.usage with
        | some u => u.completion_tokens
        | none => wordCount st.accumulatedContent + wordCount st.accumulatedReasoning),
    SSEvent.message_stop]

/-- Fold of `processFrame` over a list of frames, collecting events. -/
def runFrames (st : SState) : List Frame → SState × List SSEvent
  | [] => (st, [])
  | f :: fs =>
      let p := processFrame st f
      let q := runFrames p.1 fs
      (q.1, p.2 ++ q.2)

/-- One pre-classified line of the backend's stream: a line without the
`data:` marker (skipped), the `[DONE]` sentinel, a line whose payload
parses to a frame, or a line whose payload fails `JSON.parse`. -/
inductive Line where
  | skip
  | done
  | frame (f : Frame)
  | malformed
deriving DecidableEq

/-- How a streaming request run ends: normal finalization after the
sentinel, silent end-of-input without a sentinel (the reader loop falls
through to `reply.raw.end()`), or a thrown error (caught by the route's
handler, which replies with a 500 JSON error). -/
inductive Outcome where
  | finished
  | eofEnd
  | errored
deriving DecidableEq

/-- Result of a streaming run: the SSE events written, the final state,
whether the stream was opened (`isSucceeded` / `sendSuccessMessage`
already ran, i.e. `message_start`+`ping` were written), and the outcome. -/
structure RunResult where
  events : List SSEvent
  state : SState
  opened : Bool
  outcome : Outcome
deriving DecidableEq

/-- The reader loop over data lines (src/index.ts:441-588).  On the
sentinel: finalize and return (remaining lines are never read).  On a
parse failure or an embedded error field: throw (no further events).
Otherwise `sendSuccessMessage()` lazily opens the stream — on every
successfully parsed frame, whatever it carries — and the frame is
processed.  Exhausting the lines without a sentinel just ends the
response. -/
def runLines (st : SState) (opened : Bool) : List Line → RunResult
  | [] => ⟨[], st, opened, .eofEnd⟩
  | .skip :: rest => runLines st opened rest
  | .done :: _ => ⟨finalize st, st, opened, .finished⟩
  | .malformed :: _ => ⟨[], st, opened, .errored⟩
  | .frame f :: rest =>
      if f.error.isSome then ⟨[], st, opened, .errored⟩
      else
        let openEvs : List SSEvent :=
          if opened then [] else [.message_start, .ping]
        let p := processFrame st f
        let r := runLines p.1 true rest
        ⟨openEvs ++ p.2 ++ r.events, r.state, r.opened, r.outcome⟩

/-- A whole streaming request: the reader loop from the fresh state. -/
def runStream (lines : List Line) : RunResult :=
  runLines initState false lines

-- ==================== EVENT OBSERVERS ====================

/-- Block-level classification of an event. -/
inductive EvKind where
  | startEv (i : Nat)
  | deltaEv (i : Nat)
  | stopEv (i : Nat)
  | otherEv
deriving DecidableEq

/-- Classify an event for the block-framing invariant. -/
def evKind : SSEvent → EvKind
  | .content_block_start_text i => .startEv i
  | .content_block_start_tool i _ _ => .startEv i
  | .content_block_delta_text i _ => .deltaEv i
  | .content_block_delta_thinking i _ => .deltaEv i
  | .content_block_delta_json i _ => .deltaEv i
  | .content_block_stop i => .stopEv i
  | _ => .otherEv

/-- Boolean membership in a list of indices. -/
def natMem : List Nat → Nat → Bool
  | [], _ => false
  | j :: rest, i => if j = i then true else natMem rest i

/-- Block-framing checker: scanning the event list with the sets of
already-started and already-stopped indices, every delta's index must
have been started and not yet stopped (so all of a block's deltas
precede its stop), and every stop's index must have been started and not
yet stopped (so each index is stopped at most once). -/
def blocksWF : List SSEvent → List Nat → List Nat → Bool
  | [], _, _ => true
  | e :: rest, started, stopped =>
      match evKind e with
      | .startEv i => blocksWF rest (i :: started) stopped
      | .deltaEv i =>
          (natMem started i && !natMem stopped i)
            && blocksWF rest started stopped
      | .stopEv i =>
          (natMem started i && !natMem stopped i)
            && blocksWF rest started (i :: stopped)
      | .otherEv => blocksWF rest started stopped

/-- The started-index set after scanning an event list. -/
def startedAfter : List SSEvent → List Nat → List Nat
  | [], s => s
  | e :: rest, s =>
      match evKind e with
      | .startEv i => startedAfter rest (i :: s)
      | _ => startedAfter rest s

/-- The stopped-index set after scanning an event list. -/
def stoppedAfter : List SSEvent → List Nat → List Nat
  | [], s => s
  | e :: rest, s =>
      match evKind e with
      | .stopEv i => stoppedAfter rest (i :: s)
      | _ => stoppedAfter rest s

/-- Is the event a `message_start`? -/
def isMessageStart : SSEvent → Bool
  | .message_start => true
  | _ => false

/-- Is the event a `message_stop`? -/
def isMessageStop : SSEvent → Bool
  | .message_stop => true
  | _ => false

/-- Is the event a `message_delta`? -/
def isMessageDelta : SSEvent → Bool
  | .message_delta _ _ => true
  | _ => false

/-- Is the event a `content_block_stop` for the given index? -/
def isStopFor (i : Nat) : SSEvent → Bool
  | .content_block_stop j => j = i
  | _ => false

/-- Is the event a `content_block_start` (of either kind) for the index? -/
def isStartFor (i : Nat) : SSEvent → Bool
  | .content_block_start_text j => j = i
  | .content_block_start_tool j _ _ => j = i
  | _ => false

/-- Is the event a block-level event (start, delta or stop)? -/
def isBlockEvent (e : SSEvent) : Bool :=
  match evKind e with
  | .otherEv => false
  | _ => true

/-- Is the event an `input_json_delta` content-block delta? -/
def isJsonDelta : SSEvent → Bool
  | .content_block_delta_json _ _ => true
  | _ => false

/-- Concatenation of the `partial_json` payloads of an event list's
`input_json_delta` events. -/
def jdeltas : List SSEvent → String
  | [] => ""
  | .content_block_delta_json _ s :: rest => s ++ jdeltas rest
  | _ :: rest => jdeltas rest

-- ==================== ORCHESTRATOR: BACKEND ERROR PASS-THROUGH ====================

/-- The reply the route handler produces from the backend's HTTP status
check (src/index.ts:323-327): on a non-ok response it sets the backend's
status code and returns `{ error: <raw body text> }`; otherwise
processing continues. -/
inductive BackendReply where
  | errorPass (status : Nat) (payload : JSON)
  | proceed

/-- `if (!openaiResponse.ok) { reply.code(status); return { error: body } }`. -/
def handleBackendStatus (ok : Bool) (status : Nat) (bodyText : String) : BackendReply :=
  if ok then .proceed
  else .errorPass status (.obj [("error", .str bodyText)])

/-- The HTTP status a `BackendReply` sets, if any. -/
def replyStatus : BackendReply → Option Nat
  | .errorPass s _ => some s
  | .proceed => none

/-- The JSON payload a `BackendReply` returns, if any. -/
def replyPayload : BackendReply → Option JSON
  | .errorPass _ p => some p
  | .proceed => none

-- ==================== HELPER LEMMAS ====================

theorem sdata_append (a b : String) : (a ++ b).data = a.data ++ b.data := rfl

theorem slength_data (a : String) : a.length = a.data.length := rfl

/-- `s.substring(n)` after an append recovers exactly the appended part. -/
theorem jsSubstring_append (a u : String) : jsSubstring (a ++ u) a.length = u := by
  simp only [jsSubstring, sdata_append, slength_data, List.drop_left]

theorem slength_append (a u : String) : (a ++ u).length = a.length + u.length := by
  simp only [slength_data, sdata_append, List.length_append]

theorem string_eq_empty_iff_data (u : String) : u = "" ↔ u.data = [] := by
  constructor
  · rintro rfl
    rfl
  · intro h
    cases u with
    | mk d => cases h; rfl

theorem lookupAcc_setAcc_self (l : List (Nat × String)) (i : Nat) (v : String) :
    lookupAcc (setAcc i v l) i = some v := by
  induction l with
  | nil => simp [setAcc, lookupAcc]
  | cons p rest ih =>
      rcases Nat.lt_trichotomy i p.1 with h1 | h1 | h1
      · have h2 : p.1 ≠ i := by omega
        simp [setAcc, lookupAcc, h1, h2]
      · simp [setAcc, lookupAcc, h1, show ¬ i < p.1 by omega]
      · have h2 : ¬ i < p.1 := by omega
        have h3 : ¬ i = p.1 := by omega
        have h4 : ¬ p.1 = i := by omega
        simp [setAcc, lookupAcc, h2, h3, h4, ih]

theorem lookupAcc_setAcc_ne (l : List (Nat × String)) (i j : Nat) (v : String)
    (h : j ≠ i) : lookupAcc (setAcc i v l) j = lookupAcc l j := by
  induction l with
  | nil => simp [setAcc, lookupAcc, Ne.symm h]
  | cons p rest ih =>
      obtain ⟨pk, pv⟩ := p
      rcases Nat.lt_trichotomy i pk with h1 | h1 | h1
      · simp [setAcc, lookupAcc, h1, Ne.symm h]
      · subst h1
        simp [setAcc, lookupAcc, show ¬ i < i from lt_irrefl _, Ne.symm h]
      · simp [setAcc, lookupAcc, show ¬ i < pk by omega,
          show ¬ i = pk by omega, ih]

theorem mem_keys_setAcc (l : List (Nat × String)) (i : Nat) (v : String) (j : Nat) :
    j ∈ (setAcc i v l).map Prod.fst ↔ j = i ∨ j ∈ l.map Prod.fst := by
  induction l with
  | nil => simp [setAcc]
  | cons p rest ih =>
      obtain ⟨pk, pv⟩ := p
      rcases Nat.lt_trichotomy i pk with h1 | h1 | h1
      · simp [setAcc, h1]
      · subst h1
        simp [setAcc, show ¬ i < i from lt_irrefl _]
      · simp [setAcc, show ¬ i < pk by omega, show ¬ i = pk by omega, ih]
        tauto

theorem pairwise_keys_setAcc (l : List (Nat × String)) (i : Nat) (v : String)
    (h : (l.map Prod.fst).Pairwise (· < ·)) :
    ((setAcc i v l).map Prod.fst).Pairwise (· < ·) := by
  induction l with
  | nil => simp [setAcc]
  | cons p rest ih =>
      simp only [List.map_cons, List.pairwise_cons] at h
      rcases Nat.lt_trichotomy i p.1 with h1 | h1 | h1
      · rw [show setAcc i v (p :: rest) = (i, v) :: p :: rest by simp [setAcc, h1]]
        simp only [List.map_cons, List.pairwise_cons]
        refine ⟨?_, h.1, h.2⟩
        intro a ha
        rcases List.mem_cons.mp ha with rfl | ha
        · exact h1
        · exact lt_trans h1 (h.1 a ha)
      · rw [show setAcc i v (p :: rest) = (i, v) :: rest by
          simp [setAcc, h1, show ¬ i < p.1 by omega]]
        simp only [List.map_cons, List.pairwise_cons]
        exact ⟨fun a ha => h1 ▸ h.1 a ha, h.2⟩
      · rw [show setAcc i v (p :: rest) = p :: setAcc i v rest by
          simp [setAcc, show ¬ i < p.1 by omega, show ¬ i = p.1 by omega]]
        simp only [List.map_cons, List.pairwise_cons]
        refine ⟨?_, ih h.2⟩
        intro a ha
        rcases (mem_keys_setAcc rest i v a).mp ha with rfl | ha
        · omega
        · exact h.1 a ha

theorem lookupAcc_none_iff (l : List (Nat × String)) (i : Nat) :
    lookupAcc l i = none ↔ i ∉ l.map Prod.fst := by
  induction l with
  | nil => simp [lookupAcc]
  | cons p rest ih =>
      by_cases h : p.1 = i
      · simp [lookupAcc, h]
      · simp [lookupAcc, h, ih, Ne.symm h]

theorem setAcc_setAcc (l : List (Nat × String)) (i : Nat) (v w : String) :
    setAcc i v (setAcc i w l) = setAcc i v l := by
  induction l with
  | nil => simp [setAcc]
  | cons p rest ih =>
      rcases Nat.lt_trichotomy i p.1 with h1 | h1 | h1
      · simp [setAcc, h1, show ¬ i < i from lt_irrefl _]
      · simp [setAcc, h1, show ¬ i < p.1 by omega]
      · simp [setAcc, show ¬ i < p.1 by omega, show ¬ i = p.1 by omega, ih]

/-- Shape of one tool-call delta step when the index is not yet in the
accumulator: open the block, then emit the whole argument string as the
first suffix if it is non-empty. -/
theorem processToolCall_new (st : SState) (tc : ToolCallFrag)
    (h : lookupAcc st.toolCallAccumulators (tc.index.getD 0) = none) :
    processToolCall st tc =
      if 0 < (tc.arguments.getD "").length then
        ({ st with
            encounteredToolCall := true
            toolCallAccumulators :=
              setAcc (tc.index.getD 0) (tc.arguments.getD "") st.toolCallAccumulators },
          [.content_block_start_tool (tc.index.getD 0) tc.id tc.name,
            .content_block_delta_json (tc.index.getD 0) (jsSubstring (tc.arguments.getD "") 0)])
      else
        ({ st with
            encounteredToolCall := true
            toolCallAccumulators := setAcc (tc.index.getD 0) "" st.toolCallAccumulators },
          [.content_block_start_tool (tc.index.getD 0) tc.id tc.name]) := by
  rw [processToolCall]
  simp only [h, lookupAcc_setAcc_self, Option.getD_some]
  by_cases hl : ("" : String).length < (tc.arguments.getD "").length
  · rw [if_pos hl, if_pos (by simpa using hl)]
    simp [setAcc_setAcc]
  · rw [if_neg hl, if_neg (by simpa using hl)]

/-- Shape of one tool-call delta step when the index already has a stored
cumulative value: no start event; emit exactly the newly appended suffix
if and only if the new cumulative string is strictly longer. -/
theorem processToolCall_old (st : SState) (tc : ToolCallFrag) (old : String)
    (h : lookupAcc st.toolCallAccumulators (tc.index.getD 0) = some old) :
    processToolCall st tc =
      if old.length < (tc.arguments.getD "").length then
        ({ st with
            encounteredToolCall := true
            toolCallAccumulators :=
              setAcc (tc.index.getD 0) (tc.arguments.getD "") st.toolCallAccumulators },
          [.content_block_delta_json (tc.index.getD 0)
              (jsSubstring (tc.arguments.getD "") old.length)])
      else ({ st with encounteredToolCall := true }, []) := by
  rw [processToolCall]
  simp only [h, Option.getD_some]
  by_cases hl : old.length < (tc.arguments.getD "").length
  · rw [if_pos hl, if_pos hl]
    simp
  · rw [if_neg hl, if_neg hl]

-- ==================== CLAIM C6 ====================

/-- C6 counterexample: the claim says the backend's raw error body is
returned unchanged as the reply payload; in fact the body is wrapped in a
JSON object under the `error` key, so for a backend 404 with body "oops"
the reply payload is not the raw string "oops". -/
theorem c6_counterexample :
    replyPayload (handleBackendStatus false 404 "oops") ≠ some (JSON.str "oops") := by
  simp [handleBackendStatus, replyPayload]

/-- C6 (amended): on every non-ok backend response the proxy replies with
the backend's own status code, and with the JSON object
`{ error: <raw body> }` in which the backend's raw error body text is
embedded verbatim and untranslated. -/
theorem c6_error_passthrough (status : Nat) (bodyText : String) :
    replyStatus (handleBackendStatus false status bodyText) = some status ∧
    replyPayload (handleBackendStatus false status bodyText) =
      some (JSON.obj [("error", JSON.str bodyText)]) ∧
    handleBackendStatus true status bodyText = BackendReply.proceed := by
  refine ⟨rfl, rfl, rfl⟩

-- ==================== CLAIM C9 ====================

/-- C9 counterexample: a single user message whose content is the empty
string is dropped by the translator (the source appends a message only if
its normalized content is truthy), so the produced messages list is empty
rather than containing the claimed single user message. -/
theorem c9_counterexample :
    buildMessages none (some [{ role := "user", content := AContent.str "" }]) = [] ∧
    buildMessages none (some [{ role := "user", content := AContent.str "" }]) ≠
      [{ role := "user", content := some "" }] := by
  constructor
  · rfl
  · intro h
    simp only [show buildMessages none (some [{ role := "user", content := AContent.str "" }])
        = [] from rfl] at h
    exact List.noConfusion h

/-- C9 (amended): a Format-A request with a single user message whose
content is a non-empty text string, no system entries and no tools,
translates to a Format-B request whose messages list is exactly the one
message `{role: user, content: <the same text>}`. -/
theorem c9_single_user_roundtrip (text : String) (h : text ≠ "") :
    buildMessages none (some [{ role := "user", content := AContent.str text }]) =
      [{ role := "user", content := some text, tool_calls := none, tool_call_id := none }] := by
  simp [buildMessages, translateMessage, toolCallsOf, toolResultMessages,
    normalizeContent, truthyS, h]

/-- C9 witness: the amended round-trip at the concrete text "Hello". -/
theorem c9_witness :
    buildMessages none (some [{ role := "user", content := AContent.str "Hello" }]) =
      [{ role := "user", content := some "Hello", tool_calls := none, tool_call_id := none }] :=
  c9_single_user_roundtrip "Hello" (by decide)

-- ==================== CLAIM C10 ====================

/-- C10: a tool-call delta whose index is absent (or null) or the number
0 — both falsy in JS — is defaulted to content-block index 0; two
successive such deltas therefore share the single accumulator entry and
output block at index 0: only the first emits a `content_block_start`
(carrying the first delta's id and name), and every block event either
opens or targets index 0. -/
theorem c10_falsy_index_shares_block_zero :
    (∀ tc : ToolCallFrag, (tc.index = none ∨ tc.index = some 0) → tc.index.getD 0 = 0) ∧
    (∀ (st : SState) (a b : ToolCallFrag),
      st.toolCallAccumulators = [] →
      (a.index = none ∨ a.index = some 0) →
      (b.index = none ∨ b.index = some 0) →
      (processToolCalls st [a, b]).1.toolCallAccumulators.map Prod.fst = [0] ∧
      (processToolCalls st [a, b]).2.countP (isStartFor 0) = 1 ∧
      SSEvent.content_block_start_tool 0 a.id a.name ∈ (processToolCalls st [a, b]).2 ∧
      ∀ e ∈ (processToolCalls st [a, b]).2,
        evKind e = EvKind.startEv 0 ∨ evKind e = EvKind.deltaEv 0) := by
  constructor
  · rintro tc (h | h) <;> simp [h]
  · intro st a b hacc ha hb
    have ha0 : a.index.getD 0 = 0 := by rcases ha with h | h <;> simp [h]
    have hb0 : b.index.getD 0 = 0 := by rcases hb with h | h <;> simp [h]
    obtain ⟨ac, ar, us, tb, ec, acc⟩ := st
    simp only at hacc
    subst hacc
    have hstep1 := processToolCall_new ⟨ac, ar, us, tb, ec, []⟩ a (by rw [ha0]; rfl)
    rw [ha0] at hstep1
    simp only [setAcc] at hstep1
    by_cases h1 : 0 < (a.arguments.getD "").length
    · rw [if_pos h1] at hstep1
      have hstep2 := processToolCall_old ⟨ac, ar, us, tb, true, [(0, a.arguments.getD "")]⟩
        b (a.arguments.getD "") (by rw [hb0]; rfl)
      rw [hb0] at hstep2
      simp only [setAcc, show ¬ (0 : Nat) < 0 from lt_irrefl _, if_neg, if_pos] at hstep2
      by_cases h2 : (a.arguments.getD "").length < (b.arguments.getD "").length
      · rw [if_pos h2] at hstep2
        simp [processToolCalls, hstep1, hstep2, isStartFor, evKind]
      · rw [if_neg h2] at hstep2
        simp [processToolCalls, hstep1, hstep2, isStartFor, evKind]
    · rw [if_neg h1] at hstep1
      have hstep2 := processToolCall_old ⟨ac, ar, us, tb, true, [(0, "")]⟩
        b "" (by rw [hb0]; rfl)
      rw [hb0] at hstep2
      simp only [setAcc, show ¬ (0 : Nat) < 0 from lt_irrefl _, if_neg, if_pos] at hstep2
      by_cases h2 : ("" : String).length < (b.arguments.getD "").length
      · rw [if_pos h2] at hstep2
        simp [processToolCalls, hstep1, hstep2, isStartFor, evKind]
      · rw [if_neg h2] at hstep2
        simp [processToolCalls, hstep1, hstep2, isStartFor, evKind]

/-- C10 witness: two deltas, the first with no index and the second with
explicit index 0, land in the same block 0 with one start event. -/
theorem c10_witness :
    (Option.getD (none : Option Nat) 0 = 0) ∧
    (processToolCalls initState
        [{ index := none, id := "a", name := "f", arguments := some "x" },
         { index := some 0, id := "b", name := "g", arguments := some "xyz" }]).2.countP
      (isStartFor 0) = 1 := by
  refine ⟨c10_falsy_index_shares_block_zero.1 { index := none } (Or.inl rfl), ?_⟩
  exact (c10_falsy_index_shares_block_zero.2 initState
    { index := none, id := "a", name := "f", arguments := some "x" }
    { index := some 0, id := "b", name := "g", arguments := some "xyz" }
    rfl (Or.inl rfl) (Or.inr rfl)).2.1

-- ==================== STREAMING RUN LEMMAS ====================

/-- Is the event a `content_block_start` or `content_block_delta`? -/
def isStartOrDelta (e : SSEvent) : Bool :=
  match evKind e with
  | .startEv _ => true
  | .deltaEv _ => true
  | _ => false

/-- Is the event a `content_block_stop`? -/
def isStopEv (e : SSEvent) : Bool :=
  match evKind e with
  | .stopEv _ => true
  | _ => false

/-- The keys of the tool-argument accumulator. -/
def keysOf (st : SState) : List Nat :=
  st.toolCallAccumulators.map Prod.fst

theorem natMem_iff (l : List Nat) (i : Nat) : natMem l i = true ↔ i ∈ l := by
  induction l with
  | nil => simp [natMem]
  | cons j rest ih =>
      by_cases h : j = i
      · simp [natMem, h]
      · simp [natMem, h, ih, Ne.symm h]

theorem natMem_cons_self (l : List Nat) (i : Nat) : natMem (i :: l) i = true := by
  simp [natMem]

theorem natMem_cons_of (l : List Nat) (i j : Nat) (h : natMem l i = true) :
    natMem (j :: l) i = true := by
  by_cases hj : j = i <;> simp [natMem, hj, h]

theorem startedAfter_append (x y : List SSEvent) (s : List Nat) :
    startedAfter (x ++ y) s = startedAfter y (startedAfter x s) := by
  induction x generalizing s with
  | nil => simp [startedAfter]
  | cons e rest ih =>
      cases he : evKind e <;> simp [startedAfter, he, ih]

theorem stoppedAfter_append (x y : List SSEvent) (s : List Nat) :
    stoppedAfter (x ++ y) s = stoppedAfter y (stoppedAfter x s) := by
  induction x generalizing s with
  | nil => simp [stoppedAfter]
  | cons e rest ih =>
      cases he : evKind e <;> simp [stoppedAfter, he, ih]

theorem startedAfter_mono (evs : List SSEvent) : ∀ (s : List Nat) (i : Nat),
    natMem s i = true → natMem (startedAfter evs s) i = true := by
  induction evs with
  | nil =>
      intro s i h
      simpa [startedAfter] using h
  | cons e rest ih =>
      intro s i h
      cases he : evKind e with
      | startEv j =>
          simp only [startedAfter, he]
          exact ih (j :: s) i (natMem_cons_of _ _ _ h)
      | deltaEv j =>
          simp only [startedAfter, he]
          exact ih s i h
      | stopEv j =>
          simp only [startedAfter, he]
          exact ih s i h
      | otherEv =>
          simp only [startedAfter, he]
          exact ih s i h

theorem stoppedAfter_of_no_stops (evs : List SSEvent) (t : List Nat)
    (h : ∀ e ∈ evs, isStopEv e = false) : stoppedAfter evs t = t := by
  induction evs with
  | nil => rfl
  | cons e rest ih =>
      have hrest := ih (fun x hx => h x (List.mem_cons_of_mem e hx))
      have he := h e (List.mem_cons_self e rest)
      cases hk : evKind e with
      | startEv j =>
          simp only [stoppedAfter, hk]
          exact hrest
      | deltaEv j =>
          simp only [stoppedAfter, hk]
          exact hrest
      | stopEv j =>
          rw [isStopEv, hk] at he
          exact absurd he (by simp)
      | otherEv =>
          simp only [stoppedAfter, hk]
          exact hrest

theorem blocksWF_append (x y : List SSEvent) (s t : List Nat) :
    blocksWF (x ++ y) s t =
      (blocksWF x s t && blocksWF y (startedAfter x s) (stoppedAfter x t)) := by
  induction x generalizing s t with
  | nil => simp [blocksWF, startedAfter, stoppedAfter]
  | cons e rest ih =>
      cases he : evKind e with
      | startEv i => simp [blocksWF, startedAfter, stoppedAfter, he, ih]
      | deltaEv i =>
          simp only [List.cons_append, blocksWF, he, startedAfter, stoppedAfter]
          cases hn : natMem s i <;> cases hm : natMem t i <;> simp [ih s t]
      | stopEv i =>
          simp only [List.cons_append, blocksWF, he, startedAfter, stoppedAfter]
          cases hn : natMem s i <;> cases hm : natMem t i <;>
            simp [ih s (i :: t)]
      | otherEv => simp [blocksWF, startedAfter, stoppedAfter, he, ih]

/-- The checker rejects a delta that arrives after its block's stop. -/
theorem blocksWF_rejects_late_delta :
    blocksWF [SSEvent.content_block_start_text 0, SSEvent.content_block_stop 0,
      SSEvent.content_block_delta_text 0 "x"] [] [] = false := by
  decide

/-- Start-or-delta events are none of the message-level or stop events. -/
theorem isStartOrDelta_not (e : SSEvent) (h : isStartOrDelta e = true) :
    isMessageDelta e = false ∧ isMessageStop e = false ∧
    isMessageStart e = false ∧ isStopEv e = false ∧ (e = SSEvent.ping → False) := by
  cases e <;> simp_all [isStartOrDelta, evKind, isMessageDelta, isMessageStop,
    isMessageStart, isStopEv]

theorem lookupAcc_isSome_mem (l : List (Nat × String)) (i : Nat) (v : String)
    (h : lookupAcc l i = some v) : i ∈ l.map Prod.fst := by
  by_contra hmem
  rw [← lookupAcc_none_iff] at hmem
  rw [h] at hmem
  exact Option.noConfusion hmem

/-- Invariant step for one tool-call delta: keys stay strictly sorted,
every key is started after the step's events, the events respect block
framing, are all starts or deltas, and the text-block flag is untouched. -/
theorem ptc_invariant (st : SState) (tc : ToolCallFrag) (started : List Nat)
    (hpw : (keysOf st).Pairwise (· < ·))
    (hrep : ∀ i ∈ keysOf st, natMem started i = true) :
    ((keysOf (processToolCall st tc).1).Pairwise (· < ·)) ∧
    (∀ i ∈ keysOf (processToolCall st tc).1,
      natMem (startedAfter (processToolCall st tc).2 started) i = true) ∧
    blocksWF (processToolCall st tc).2 started [] = true ∧
    (∀ e ∈ (processToolCall st tc).2, isStartOrDelta e = true) ∧
    (processToolCall st tc).1.textBlockStarted = st.textBlockStarted := by
  cases hl : lookupAcc st.toolCallAccumulators (tc.index.getD 0) with
  | none =>
      have h := processToolCall_new st tc hl
      by_cases hlen : 0 < (tc.arguments.getD "").length
      · rw [if_pos hlen] at h
        rw [h]
        refine ⟨pairwise_keys_setAcc _ _ _ hpw, ?_, ?_, ?_, rfl⟩
        · intro i hi
          simp only [keysOf] at hi
          rw [mem_keys_setAcc] at hi
          simp only [startedAfter, evKind]
          rcases hi with rfl | hi
          · exact natMem_cons_self _ _
          · exact natMem_cons_of _ _ _ (hrep i hi)
        · simp [blocksWF, evKind, natMem_cons_self, natMem]
        · intro e he
          fin_cases he <;> simp [isStartOrDelta, evKind]
      · rw [if_neg hlen] at h
        rw [h]
        refine ⟨pairwise_keys_setAcc _ _ _ hpw, ?_, ?_, ?_, rfl⟩
        · intro i hi
          simp only [keysOf] at hi
          rw [mem_keys_setAcc] at hi
          simp only [startedAfter, evKind]
          rcases hi with rfl | hi
          · exact natMem_cons_self _ _
          · exact natMem_cons_of _ _ _ (hrep i hi)
        · simp [blocksWF, evKind]
        · intro e he
          fin_cases he <;> simp [isStartOrDelta, evKind]
  | some old =>
      have h := processToolCall_old st tc old hl
      have hmem : tc.index.getD 0 ∈ keysOf st := lookupAcc_isSome_mem _ _ _ hl
      by_cases hlen : old.length < (tc.arguments.getD "").length
      · rw [if_pos hlen] at h
        rw [h]
        refine ⟨pairwise_keys_setAcc _ _ _ hpw, ?_, ?_, ?_, rfl⟩
        · intro i hi
          simp only [keysOf] at hi
          rw [mem_keys_setAcc] at hi
          simp only [startedAfter, evKind]
          rcases hi with rfl | hi
          · exact hrep _ hmem
          · exact hrep i hi
        · simp [blocksWF, evKind, hrep _ hmem, natMem]
        · intro e he
          fin_cases he <;> simp [isStartOrDelta, evKind]
      · rw [if_neg hlen] at h
        rw [h]
        exact ⟨hpw, fun i hi => hrep i hi, rfl, by simp, rfl⟩

/-- Invariant for a whole frame's tool-call loop. -/
theorem ptcs_invariant (tcs : List ToolCallFrag) :
    ∀ (st : SState) (started : List Nat),
    (keysOf st).Pairwise (· < ·) →
    (∀ i ∈ keysOf st, natMem started i = true) →
    ((keysOf (processToolCalls st tcs).1).Pairwise (· < ·)) ∧
    (∀ i ∈ keysOf (processToolCalls st tcs).1,
      natMem (startedAfter (processToolCalls st tcs).2 started) i = true) ∧
    blocksWF (processToolCalls st tcs).2 started [] = true ∧
    (∀ e ∈ (processToolCalls st tcs).2, isStartOrDelta e = true) ∧
    (processToolCalls st tcs).1.textBlockStarted = st.textBlockStarted := by
  induction tcs with
  | nil =>
      intro st started hpw hrep
      exact ⟨hpw, fun i hi => hrep i hi, rfl, by simp [processToolCalls], rfl⟩
  | cons tc rest ih =>
      intro st started hpw hrep
      obtain ⟨hpw1, hrep1, hwf1, hsd1, htb1⟩ := ptc_invariant st tc started hpw hrep
      obtain ⟨hpw2, hrep2, hwf2, hsd2, htb2⟩ :=
        ih (processToolCall st tc).1 (startedAfter (processToolCall st tc).2 started)
          hpw1 hrep1
      simp only [processToolCalls]
      refine ⟨hpw2, ?_, ?_, ?_, ?_⟩
      · intro i hi
        rw [startedAfter_append]
        exact hrep2 i hi
      · rw [blocksWF_append, hwf1,
          stoppedAfter_of_no_stops _ _
            (fun e he => (isStartOrDelta_not e (hsd1 e he)).2.2.2.1),
          hwf2]
        rfl
      · intro e he
        rcases List.mem_append.mp he with he | he
        · exact hsd1 e he
        · exact hsd2 e he
      · rw [htb2, htb1]

/-- The usage field after a frame (store backend usage, last write wins). -/
def newUsage (st : SState) (f : Frame) : Option OAUsage :=
  match f.usage with
  | some u => some u
  | none => st.usage

theorem processFrame_none (st : SState) (f : Frame) (hd : f.delta = none) :
    processFrame st f = ({ st with usage := newUsage st f }, []) := by
  cases hu : f.usage <;> simp [processFrame, newUsage, hd, hu]

theorem processFrame_tools (st : SState) (f : Frame) (d : Delta)
    (tcs : List ToolCallFrag) (hd : f.delta = some d) (ht : d.tool_calls = some tcs) :
    processFrame st f = processToolCalls { st with usage := newUsage st f } tcs := by
  cases hu : f.usage <;> simp [processFrame, newUsage, hd, hu, ht]

theorem processFrame_quiet (st : SState) (f : Frame) (d : Delta)
    (hd : f.delta = some d) (ht : d.tool_calls = none)
    (hc : truthyS d.content = false) (hr : truthyS d.reasoning = false) :
    processFrame st f = ({ st with usage := newUsage st f }, []) := by
  cases hu : f.usage <;> simp [processFrame, newUsage, hd, hu, ht, hc, hr]

theorem processFrame_content_started (st : SState) (f : Frame) (d : Delta)
    (hd : f.delta = some d) (ht : d.tool_calls = none)
    (hc : truthyS d.content = true) (hs : st.textBlockStarted = true) :
    processFrame st f =
      ({ st with
          usage := newUsage st f
          textBlockStarted := true
          accumulatedContent := st.accumulatedContent ++ d.content.getD "" },
        [.content_block_delta_text 0 (d.content.getD "")]) := by
  cases hu : f.usage <;> simp [processFrame, newUsage, hd, hu, ht, hc, hs]

theorem processFrame_content_fresh (st : SState) (f : Frame) (d : Delta)
    (hd : f.delta = some d) (ht : d.tool_calls = none)
    (hc : truthyS d.content = true) (hs : st.textBlockStarted = false) :
    processFrame st f =
      ({ st with
          usage := newUsage st f
          textBlockStarted := true
          accumulatedContent := st.accumulatedContent ++ d.content.getD "" },
        [.content_block_start_text 0, .content_block_delta_text 0 (d.content.getD "")]) := by
  cases hu : f.usage <;> simp [processFrame, newUsage, hd, hu, ht, hc, hs]

theorem processFrame_reasoning_started (st : SState) (f : Frame) (d : Delta)
    (hd : f.delta = some d) (ht : d.tool_calls = none)
    (hc : truthyS d.content = false) (hr : truthyS d.reasoning = true)
    (hs : st.textBlockStarted = true) :
    processFrame st f =
      ({ st with
          usage := newUsage st f
          textBlockStarted := true
          accumulatedReasoning := st.accumulatedReasoning ++ d.reasoning.getD "" },
        [.content_block_delta_thinking 0 (d.reasoning.getD "")]) := by
  cases hu : f.usage <;> simp [processFrame, newUsage, hd, hu, ht, hc, hr, hs]

theorem processFrame_reasoning_fresh (st : SState) (f : Frame) (d : Delta)
    (hd : f.delta = some d) (ht : d.tool_calls = none)
    (hc : truthyS d.content = false) (hr : truthyS d.reasoning = true)
    (hs : st.textBlockStarted = false) :
    processFrame st f =
      ({ st with
          usage := newUsage st f
          textBlockStarted := true
          accumulatedReasoning := st.accumulatedReasoning ++ d.reasoning.getD "" },
        [.content_block_start_text 0,
          .content_block_delta_thinking 0 (d.reasoning.getD "")]) := by
  cases hu : f.usage <;> simp [processFrame, newUsage, hd, hu, ht, hc, hr, hs]

/-- Invariant step for one parsed frame. -/
theorem pf_invariant (st : SState) (f : Frame) (started : List Nat)
    (hpw : (keysOf st).Pairwise (· < ·))
    (hrep : ∀ i ∈ keysOf st, natMem started i = true)
    (htb : st.textBlockStarted = true → natMem started 0 = true) :
    ((keysOf (processFrame st f).1).Pairwise (· < ·)) ∧
    (∀ i ∈ keysOf (processFrame st f).1,
      natMem (startedAfter (processFrame st f).2 started) i = true) ∧
    ((processFrame st f).1.textBlockStarted = true →
      natMem (startedAfter (processFrame st f).2 started) 0 = true) ∧
    blocksWF (processFrame st f).2 started [] = true ∧
    (∀ e ∈ (processFrame st f).2, isStartOrDelta e = true) := by
  cases hd : f.delta with
  | none =>
      rw [processFrame_none st f hd]
      exact ⟨hpw, fun i hi => hrep i hi, fun h => by
        simpa [startedAfter] using htb h, rfl, by simp⟩
  | some d =>
      cases ht : d.tool_calls with
      | some tcs =>
          rw [processFrame_tools st f d tcs hd ht]
          obtain ⟨hpw2, hrep2, hwf2, hsd2, htb2⟩ :=
            ptcs_invariant tcs { st with usage := newUsage st f } started
              (by simpa [keysOf] using hpw) (by simpa [keysOf] using hrep)
          refine ⟨hpw2, hrep2, ?_, hwf2, hsd2⟩
          intro h
          rw [htb2] at h
          exact startedAfter_mono _ _ _ (htb h)
      | none =>
          by_cases hc : truthyS d.content = true
          · by_cases hs : st.textBlockStarted = true
            · rw [processFrame_content_started st f d hd ht hc hs]
              have h0 := htb hs
              refine ⟨by simpa [keysOf] using hpw, ?_, ?_, ?_, ?_⟩
              · intro i hi
                simp only [keysOf, startedAfter, evKind] at hi ⊢
                exact hrep i hi
              · intro _
                simpa [startedAfter, evKind] using h0
              · simp [blocksWF, evKind, h0, natMem]
              · intro e he
                fin_cases he <;> simp [isStartOrDelta, evKind]
            · have hs' : st.textBlockStarted = false := by
                cases hx : st.textBlockStarted
                · rfl
                · exact absurd hx hs
              rw [processFrame_content_fresh st f d hd ht hc hs']
              refine ⟨by simpa [keysOf] using hpw, ?_, ?_, ?_, ?_⟩
              · intro i hi
                simp only [keysOf, startedAfter, evKind] at hi ⊢
                exact natMem_cons_of _ _ _ (hrep i hi)
              · intro _
                simp only [startedAfter, evKind]
                exact natMem_cons_self _ _
              · simp [blocksWF, evKind, natMem_cons_self, natMem]
              · intro e he
                fin_cases he <;> simp [isStartOrDelta, evKind]
          · by_cases hr : truthyS d.reasoning = true
            · have hc' : truthyS d.content = false := by
                cases hx : truthyS d.content
                · rfl
                · exact absurd hx hc
              by_cases hs : st.textBlockStarted = true
              · rw [processFrame_reasoning_started st f d hd ht hc' hr hs]
                have h0 := htb hs
                refine ⟨by simpa [keysOf] using hpw, ?_, ?_, ?_, ?_⟩
                · intro i hi
                  simp only [keysOf, startedAfter, evKind] at hi ⊢
                  exact hrep i hi
                · intro _
                  simpa [startedAfter, evKind] using h0
                · simp [blocksWF, evKind, h0, natMem]
                · intro e he
                  fin_cases he <;> simp [isStartOrDelta, evKind]
              · have hs' : st.textBlockStarted = false := by
                  cases hx : st.textBlockStarted
                  · rfl
                  · exact absurd hx hs
                rw [processFrame_reasoning_fresh st f d hd ht hc' hr hs']
                refine ⟨by simpa [keysOf] using hpw, ?_, ?_, ?_, ?_⟩
                · intro i hi
                  simp only [keysOf, startedAfter, evKind] at hi ⊢
                  exact natMem_cons_of _ _ _ (hrep i hi)
                · intro _
                  simp only [startedAfter, evKind]
                  exact natMem_cons_self _ _
                · simp [blocksWF, evKind, natMem_cons_self, natMem]
                · intro e he
                  fin_cases he <;> simp [isStartOrDelta, evKind]
            · have hc' : truthyS d.content = false := by
                cases hx : truthyS d.content
                · rfl
                · exact absurd hx hc
              have hr' : truthyS d.reasoning = false := by
                cases hx : truthyS d.reasoning
                · rfl
                · exact absurd hx hr
              rw [processFrame_quiet st f d hd ht hc' hr']
              exact ⟨by simpa [keysOf] using hpw, fun i hi => by
                  simpa [startedAfter] using hrep i (by simpa [keysOf] using hi),
                fun h => by simpa [startedAfter] using htb h, rfl, by simp⟩

/-- Invariant over a list of data frames. -/
theorem rf_invariant (fs : List Frame) : ∀ (st : SState) (started : List Nat),
    (keysOf st).Pairwise (· < ·) →
    (∀ i ∈ keysOf st, natMem started i = true) →
    (st.textBlockStarted = true → natMem started 0 = true) →
    ((keysOf (runFrames st fs).1).Pairwise (· < ·)) ∧
    (∀ i ∈ keysOf (runFrames st fs).1,
      natMem (startedAfter (runFrames st fs).2 started) i = true) ∧
    ((runFrames st fs).1.textBlockStarted = true →
      natMem (startedAfter (runFrames st fs).2 started) 0 = true) ∧
    blocksWF (runFrames st fs).2 started [] = true ∧
    (∀ e ∈ (runFrames st fs).2, isStartOrDelta e = true) := by
  induction fs with
  | nil =>
      intro st started hpw hrep htb
      exact ⟨hpw, fun i hi => hrep i hi, fun h => htb h, rfl, by simp [runFrames]⟩
  | cons f fs ih =>
      intro st started hpw hrep htb
      obtain ⟨hpw1, hrep1, htb1, hwf1, hsd1⟩ := pf_invariant st f started hpw hrep htb
      obtain ⟨hpw2, hrep2, htb2, hwf2, hsd2⟩ :=
        ih (processFrame st f).1 (startedAfter (processFrame st f).2 started)
          hpw1 hrep1 htb1
      simp only [runFrames]
      refine ⟨hpw2, ?_, ?_, ?_, ?_⟩
      · intro i hi
        rw [startedAfter_append]
        exact hrep2 i hi
      · intro h
        rw [startedAfter_append]
        exact htb2 h
      · rw [blocksWF_append, hwf1,
          stoppedAfter_of_no_stops _ _
            (fun e he => (isStartOrDelta_not e (hsd1 e he)).2.2.2.1),
          hwf2]
        rfl
      · intro e he
        rcases List.mem_append.mp he with he | he
        · exact hsd1 e he
        · exact hsd2 e he

/-- A run of distinct stops over started, not-yet-stopped indices, followed
by the terminal `message_delta`/`message_stop` pair, is well-framed. -/
theorem stops_wf (ks : List Nat) : ∀ (started stopped : List Nat) (sr : String) (tok : Nat),
    ks.Nodup →
    (∀ i ∈ ks, natMem started i = true) →
    (∀ i ∈ ks, natMem stopped i = false) →
    blocksWF (ks.map SSEvent.content_block_stop ++
        [SSEvent.message_delta sr tok, SSEvent.message_stop]) started stopped = true := by
  induction ks with
  | nil =>
      intro started stopped sr tok _ _ _
      simp [blocksWF, evKind]
  | cons k ks ih =>
      intro started stopped sr tok hnd hst hsp
      simp only [List.map_cons, List.cons_append, blocksWF, evKind]
      rw [hst k (List.mem_cons_self k ks), hsp k (List.mem_cons_self k ks)]
      simp only [Bool.not_false, Bool.and_true, Bool.true_and]
      refine ih started (k :: stopped) sr tok (List.Nodup.of_cons hnd)
        (fun i hi => hst i (List.mem_cons_of_mem k hi)) ?_
      intro i hi
      have hne : k ≠ i := by
        intro hki
        subst hki
        exact (List.nodup_cons.mp hnd).1 hi
      simp [natMem, hne, hsp i (List.mem_cons_of_mem k hi)]

/-- The finalization events are well-framed after any well-represented
state. -/
theorem finalize_blocksWF (st : SState) (started : List Nat)
    (hpw : (keysOf st).Pairwise (· < ·))
    (hrep : ∀ i ∈ keysOf st, natMem started i = true)
    (htb : st.textBlockStarted = true → natMem started 0 = true) :
    blocksWF (finalize st) started [] = true := by
  rw [finalize]
  by_cases he : st.encounteredToolCall = true
  · rw [if_pos he]
    have hmap : st.toolCallAccumulators.map (fun p => SSEvent.content_block_stop p.1)
        = (keysOf st).map SSEvent.content_block_stop := by
      simp [keysOf, List.map_map]
    rw [hmap]
    exact stops_wf (keysOf st) started [] _ _
      (hpw.imp (fun hlt => Nat.ne_of_lt hlt)) hrep (fun i _ => rfl)
  · rw [if_neg he]
    by_cases ht : st.textBlockStarted = true
    · rw [if_pos ht]
      simp [blocksWF, evKind, htb ht, natMem]
    · rw [if_neg ht]
      simp [blocksWF, evKind]

/-- Reader-loop decomposition: error-free data frames followed by the
sentinel (and anything after it, which is never read) produce the lazy
opening events, the per-frame events, and the finalization, and finish. -/
theorem runLines_split (fs : List Frame) : ∀ (st : SState) (opened : Bool)
    (junk : List Line), (∀ f ∈ fs, f.error = none) →
    runLines st opened (fs.map Line.frame ++ Line.done :: junk) =
      ⟨(if opened || fs.isEmpty then [] else [SSEvent.message_start, SSEvent.ping])
          ++ (runFrames st fs).2 ++ finalize (runFrames st fs).1,
        (runFrames st fs).1, opened || !fs.isEmpty, Outcome.finished⟩ := by
  induction fs with
  | nil =>
      intro st opened junk _
      simp [runLines, runFrames]
  | cons f fs ih =>
      intro st opened junk herr
      have hf : f.error = none := herr f (List.mem_cons_self f fs)
      simp only [List.map_cons, List.cons_append, runLines, hf, Option.isSome_none,
        Bool.false_eq_true, if_false, List.isEmpty_cons, Bool.or_false, List.append_eq]
      rw [ih (processFrame st f).1 true junk
        (fun x hx => herr x (List.mem_cons_of_mem f hx))]
      simp only [runFrames, Bool.true_or, List.isEmpty_nil, if_true, List.nil_append,
        Bool.not_false, Bool.or_true]
      cases opened <;> simp [List.append_assoc]

/-- Reader-loop decomposition for a stream that ends (EOF) without the
sentinel: the loop falls through silently. -/
theorem runLines_eof (fs : List Frame) : ∀ (st : SState) (opened : Bool),
    (∀ f ∈ fs, f.error = none) →
    runLines st opened (fs.map Line.frame) =
      ⟨(if opened || fs.isEmpty then [] else [SSEvent.message_start, SSEvent.ping])
          ++ (runFrames st fs).2,
        (runFrames st fs).1, opened || !fs.isEmpty, Outcome.eofEnd⟩ := by
  induction fs with
  | nil =>
      intro st opened _
      simp [runLines, runFrames]
  | cons f fs ih =>
      intro st opened herr
      have hf : f.error = none := herr f (List.mem_cons_self f fs)
      simp only [List.map_cons, runLines, hf, Option.isSome_none,
        Bool.false_eq_true, if_false, List.isEmpty_cons, Bool.or_false]
      rw [ih (processFrame st f).1 true
        (fun x hx => herr x (List.mem_cons_of_mem f hx))]
      simp only [runFrames, Bool.true_or, List.isEmpty_nil, if_true, List.nil_append,
        Bool.not_false, Bool.or_true]
      cases opened <;> simp [List.append_assoc]

/-- Count of per-index stops in a nodup stop run. -/
theorem countP_stops (ks : List Nat) (idx : Nat) (hnd : ks.Nodup) :
    (ks.map SSEvent.content_block_stop).countP (isStopFor idx) =
      if idx ∈ ks then 1 else 0 := by
  induction ks with
  | nil => simp
  | cons k ks ih =>
      simp only [List.map_cons, List.countP_cons]
      rw [ih (List.Nodup.of_cons hnd)]
      by_cases hk : k = idx
      · subst hk
        have : k ∉ ks := (List.nodup_cons.mp hnd).1
        simp [isStopFor, this]
      · have hik : ¬ idx = k := fun h => hk h.symm
        simp [isStopFor, hk, List.mem_cons, hik]

/-- The `content_block_stop` events finalization emits (src/index.ts:459-471). -/
def stopsOf (st : SState) : List SSEvent :=
  if st.encounteredToolCall then
    st.toolCallAccumulators.map (fun p => SSEvent.content_block_stop p.1)
  else if st.textBlockStarted then [SSEvent.content_block_stop 0]
  else []

/-- The `stop_reason` finalization reports (src/index.ts:476). -/
def stopReasonOf (st : SState) : String :=
  if st.encounteredToolCall then "tool_use" else "end_turn"

/-- The `output_tokens` finalization reports (src/index.ts:479-481). -/
def outTokensOf (st : SState) : Nat :=
  match st.usage with
  | some u => u.completion_tokens
  | none => wordCount st.accumulatedContent + wordCount st.accumulatedReasoning

theorem finalize_eq (st : SState) :
    finalize st = stopsOf st ++
      [SSEvent.message_delta (stopReasonOf st) (outTokensOf st), SSEvent.message_stop] := rfl

theorem stopsOf_stopEv (st : SState) : ∀ e ∈ stopsOf st, isStopEv e = true := by
  intro e he
  rw [stopsOf] at he
  by_cases hc : st.encounteredToolCall = true
  · rw [if_pos hc] at he
    obtain ⟨p, _, rfl⟩ := List.mem_map.mp he
    rfl
  · rw [if_neg hc] at he
    by_cases ht : st.textBlockStarted = true
    · rw [if_pos ht] at he
      rcases List.mem_singleton.mp he with rfl
      rfl
    · rw [if_neg ht] at he
      exact absurd he (List.not_mem_nil e)

theorem countP_zero_of (l : List SSEvent) (p : SSEvent → Bool)
    (h : ∀ e ∈ l, p e = false) : l.countP p = 0 :=
  List.countP_eq_zero.mpr (by intro a ha; simp [h a ha])

theorem isStopEv_not_message (e : SSEvent) (h : isStopEv e = true) :
    isMessageDelta e = false ∧ isMessageStop e = false ∧ isMessageStart e = false := by
  cases e <;> simp_all [isStopEv, evKind, isMessageDelta, isMessageStop, isMessageStart]

theorem isStopFor_isStopEv (idx : Nat) (e : SSEvent) (h : isStopFor idx e = true) :
    isStopEv e = true := by
  cases e <;> simp_all [isStopFor, isStopEv, evKind]

theorem ptc_startOrDelta (st : SState) (tc : ToolCallFrag) :
    ∀ e ∈ (processToolCall st tc).2, isStartOrDelta e = true := by
  intro e he
  cases hl : lookupAcc st.toolCallAccumulators (tc.index.getD 0) with
  | none =>
      rw [processToolCall_new st tc hl] at he
      by_cases hlen : 0 < (tc.arguments.getD "").length
      · rw [if_pos hlen] at he
        fin_cases he <;> simp [isStartOrDelta, evKind]
      · rw [if_neg hlen] at he
        fin_cases he <;> simp [isStartOrDelta, evKind]
  | some old =>
      rw [processToolCall_old st tc old hl] at he
      by_cases hlen : old.length < (tc.arguments.getD "").length
      · rw [if_pos hlen] at he
        fin_cases he <;> simp [isStartOrDelta, evKind]
      · rw [if_neg hlen] at he
        exact absurd he (List.not_mem_nil e)

theorem ptcs_startOrDelta (tcs : List ToolCallFrag) : ∀ (st : SState),
    ∀ e ∈ (processToolCalls st tcs).2, isStartOrDelta e = true := by
  induction tcs with
  | nil =>
      intro st e he
      exact absurd he (List.not_mem_nil e)
  | cons tc rest ih =>
      intro st e he
      simp only [processToolCalls] at he
      rcases List.mem_append.mp he with he | he
      · exact ptc_startOrDelta st tc e he
      · exact ih (processToolCall st tc).1 e he

theorem pf_startOrDelta (st : SState) (f : Frame) :
    ∀ e ∈ (processFrame st f).2, isStartOrDelta e = true := by
  intro e he
  cases hd : f.delta with
  | none =>
      rw [processFrame_none st f hd] at he
      exact absurd he (List.not_mem_nil e)
  | some d =>
      cases ht : d.tool_calls with
      | some tcs =>
          rw [processFrame_tools st f d tcs hd ht] at he
          exact ptcs_startOrDelta tcs _ e he
      | none =>
          by_cases hc : truthyS d.content = true
          · by_cases hs : st.textBlockStarted = true
            · rw [processFrame_content_started st f d hd ht hc hs] at he
              fin_cases he <;> simp [isStartOrDelta, evKind]
            · rw [processFrame_content_fresh st f d hd ht hc
                (by cases hx : st.textBlockStarted
                    · rfl
                    · exact absurd hx hs)] at he
              fin_cases he <;> simp [isStartOrDelta, evKind]
          · by_cases hr : truthyS d.reasoning = true
            · have hc' : truthyS d.content = false := by
                cases hx : truthyS d.content
                · rfl
                · exact absurd hx hc
              by_cases hs : st.textBlockStarted = true
              · rw [processFrame_reasoning_started st f d hd ht hc' hr hs] at he
                fin_cases he <;> simp [isStartOrDelta, evKind]
              · rw [processFrame_reasoning_fresh st f d hd ht hc' hr
                  (by cases hx : st.textBlockStarted
                      · rfl
                      · exact absurd hx hs)] at he
                fin_cases he <;> simp [isStartOrDelta, evKind]
            · have hc' : truthyS d.content = false := by
                cases hx : truthyS d.content
                · rfl
                · exact absurd hx hc
              have hr' : truthyS d.reasoning = false := by
                cases hx : truthyS d.reasoning
                · rfl
                · exact absurd hx hr
              rw [processFrame_quiet st f d hd ht hc' hr'] at he
              exact absurd he (List.not_mem_nil e)

theorem rf_startOrDelta (fs : List Frame) : ∀ (st : SState),
    ∀ e ∈ (runFrames st fs).2, isStartOrDelta e = true := by
  induction fs with
  | nil =>
      intro st e he
      exact absurd he (List.not_mem_nil e)
  | cons f rest ih =>
      intro st e he
      simp only [runFrames] at he
      rcases List.mem_append.mp he with he | he
      · exact pf_startOrDelta st f e he
      · exact ih (processFrame st f).1 e he

-- ==================== CLAIM C1 ====================

/-- A finished streaming run: frames, the sentinel, then unread residue. -/
def doneStream (fs : List Frame) (junk : List Line) : RunResult :=
  runStream (fs.map Line.frame ++ Line.done :: junk)

/-- The state in which the sentinel is observed. -/
def finalSt (fs : List Frame) : SState :=
  (runFrames initState fs).1

/-- C1: on the sentinel line the reencoder finalizes: if a tool call was
seen it emits one `content_block_stop` per accumulator index, else one
stop for the open text block (index 0), else none; then exactly one
`message_delta` whose stop_reason is `tool_use` iff a tool call was seen,
carrying the stored backend completion-token count or else the combined
space-split word count of accumulated content and reasoning; then exactly
one `message_stop`, the last event; and the run terminates, ignoring any
further input. -/
theorem c1_finalization (fs : List Frame) (junk : List Line)
    (herr : ∀ f ∈ fs, f.error = none) :
    (doneStream fs junk).outcome = Outcome.finished ∧
    (doneStream fs junk).events =
      (if fs.isEmpty then [] else [SSEvent.message_start, SSEvent.ping])
        ++ (runFrames initState fs).2 ++ stopsOf (finalSt fs)
        ++ [SSEvent.message_delta
              (if (finalSt fs).encounteredToolCall then "tool_use" else "end_turn")
              (match (finalSt fs).usage with
                | some u => u.completion_tokens
                | none => wordCount (finalSt fs).accumulatedContent
                    + wordCount (finalSt fs).accumulatedReasoning),
            SSEvent.message_stop] ∧
    (doneStream fs junk).events.countP isMessageDelta = 1 ∧
    (doneStream fs junk).events.countP isMessageStop = 1 ∧
    (doneStream fs junk).events.getLast? = some SSEvent.message_stop ∧
    ((finalSt fs).encounteredToolCall = true →
      ∀ idx, (doneStream fs junk).events.countP (isStopFor idx) =
        if idx ∈ keysOf (finalSt fs) then 1 else 0) ∧
    ((finalSt fs).encounteredToolCall = false →
      ∀ idx, (doneStream fs junk).events.countP (isStopFor idx) =
        if (finalSt fs).textBlockStarted = true ∧ idx = 0 then 1 else 0) := by
  have hsplit := runLines_split fs initState false junk herr
  have hframes := rf_startOrDelta fs initState
  have hinv := rf_invariant fs initState [] (by simp [keysOf, initState])
    (by simp [keysOf, initState]) (by simp [initState])
  have hopen : ∀ p : SSEvent → Bool, p SSEvent.message_start = false →
      p SSEvent.ping = false →
      ((if fs.isEmpty then [] else
        [SSEvent.message_start, SSEvent.ping]) : List SSEvent).countP p = 0 := by
    intro p h1 h2
    by_cases hf : fs.isEmpty <;> simp [hf, List.countP_cons, h1, h2]
  have hfr0 : ∀ p : SSEvent → Bool, (∀ e, isStartOrDelta e = true → p e = false) →
      (runFrames initState fs).2.countP p = 0 := by
    intro p hp
    exact countP_zero_of _ _ (fun e he => hp e (hframes e he))
  have hstops0 : ∀ p : SSEvent → Bool, (∀ e, isStopEv e = true → p e = false) →
      (stopsOf (finalSt fs)).countP p = 0 := by
    intro p hp
    exact countP_zero_of _ _ (fun e he => hp e (stopsOf_stopEv _ e he))
  have hevents : (doneStream fs junk).events =
      (if fs.isEmpty then [] else [SSEvent.message_start, SSEvent.ping])
        ++ (runFrames initState fs).2 ++ stopsOf (finalSt fs)
        ++ [SSEvent.message_delta (stopReasonOf (finalSt fs)) (outTokensOf (finalSt fs)),
            SSEvent.message_stop] := by
    show (runLines initState false (fs.map Line.frame ++ Line.done :: junk)).events = _
    rw [hsplit]
    show (if (false || fs.isEmpty) = true then ([] : List SSEvent) else _) ++ _ ++ _ = _
    rw [finalize_eq, Bool.false_or]
    simp [List.append_assoc, finalSt]
  refine ⟨?_, ?_, ?_, ?_, ?_, ?_, ?_⟩
  · show (runLines initState false (fs.map Line.frame ++ Line.done :: junk)).outcome = _
    rw [hsplit]
  · rw [hevents]
    rfl
  · rw [hevents]
    simp only [List.countP_append]
    rw [hopen _ rfl rfl, hfr0 _ (fun e he => (isStartOrDelta_not e he).1),
      hstops0 _ (fun e he => (isStopEv_not_message e he).1)]
    rfl
  · rw [hevents]
    simp only [List.countP_append]
    rw [hopen _ rfl rfl, hfr0 _ (fun e he => (isStartOrDelta_not e he).2.1),
      hstops0 _ (fun e he => (isStopEv_not_message e he).2.1)]
    rfl
  · rw [hevents]
    rw [show (if fs.isEmpty then ([] : List SSEvent) else
          [SSEvent.message_start, SSEvent.ping])
        ++ (runFrames initState fs).2 ++ stopsOf (finalSt fs)
        ++ [SSEvent.message_delta (stopReasonOf (finalSt fs)) (outTokensOf (finalSt fs)),
            SSEvent.message_stop]
      = ((if fs.isEmpty then [] else [SSEvent.message_start, SSEvent.ping])
          ++ (runFrames initState fs).2 ++ stopsOf (finalSt fs)
          ++ [SSEvent.message_delta (stopReasonOf (finalSt fs))
                (outTokensOf (finalSt fs))]) ++ [SSEvent.message_stop] by
        simp [List.append_assoc]]
    exact List.getLast?_concat _
  · intro henc idx
    have hnostop : (runFrames initState fs).2.countP (isStopFor idx) = 0 := by
      refine hfr0 _ (fun e he => ?_)
      cases hx : isStopFor idx e
      · rfl
      · exfalso
        have h1 := isStopFor_isStopEv idx e hx
        have h2 := (isStartOrDelta_not e he).2.2.2.1
        rw [h1] at h2
        exact Bool.noConfusion h2
    rw [hevents]
    simp only [List.countP_append]
    rw [hopen _ rfl rfl, hnostop]
    have hmap : (finalSt fs).toolCallAccumulators.map
        (fun p => SSEvent.content_block_stop p.1)
        = (keysOf (finalSt fs)).map SSEvent.content_block_stop := by
      simp [keysOf, List.map_map]
    rw [stopsOf, if_pos henc, hmap,
      countP_stops (keysOf (finalSt fs)) idx
        (hinv.1.imp (fun hlt => Nat.ne_of_lt hlt))]
    show 0 + 0 + _ + List.countP (isStopFor idx)
      [SSEvent.message_delta (stopReasonOf (finalSt fs)) (outTokensOf (finalSt fs)),
        SSEvent.message_stop] = _
    rw [show List.countP (isStopFor idx)
        [SSEvent.message_delta (stopReasonOf (finalSt fs)) (outTokensOf (finalSt fs)),
          SSEvent.message_stop] = 0 from rfl]
    omega
  · intro henc idx
    have hnostop : (runFrames initState fs).2.countP (isStopFor idx) = 0 := by
      refine hfr0 _ (fun e he => ?_)
      cases hx : isStopFor idx e
      · rfl
      · exfalso
        have h1 := isStopFor_isStopEv idx e hx
        have h2 := (isStartOrDelta_not e he).2.2.2.1
        rw [h1] at h2
        exact Bool.noConfusion h2
    rw [hevents]
    simp only [List.countP_append]
    rw [hopen _ rfl rfl, hnostop]
    rw [stopsOf, if_neg (by rw [henc]; simp)]
    rw [show List.countP (isStopFor idx)
        [SSEvent.message_delta (stopReasonOf (finalSt fs)) (outTokensOf (finalSt fs)),
          SSEvent.message_stop] = 0 from rfl]
    by_cases ht : (finalSt fs).textBlockStarted = true
    · rw [if_pos ht]
      by_cases hz : idx = 0
      · subst hz
        simp [isStopFor, ht]
      · have : ¬ (0 : Nat) = idx := fun h => hz h.symm
        simp [isStopFor, ht, hz, this]
    · rw [if_neg ht]
      have ht' : (finalSt fs).textBlockStarted = false := by
        cases hx : (finalSt fs).textBlockStarted
        · rfl
        · exact absurd hx ht
      simp [ht']

/-- A frame carrying plain content text (test input). -/
def textFrame (s : String) : Frame :=
  { error := none, usage := none, delta := some { tool_calls := none, content := some s, reasoning := none } }

/-- A frame carrying content text plus a backend usage report (test input). -/
def usageTextFrame (s : String) (p c : Nat) : Frame :=
  { error := none, usage := some { prompt_tokens := p, completion_tokens := c }, delta := some { tool_calls := none, content := some s, reasoning := none } }

/-- A frame carrying nothing at all (purely structural; test input). -/
def emptyFrame : Frame :=
  { error := none, usage := none, delta := none }

theorem finalize_count_mstop (st : SState) :
    (finalize st).countP isMessageStop = 1 := by
  rw [finalize_eq, List.countP_append,
    countP_zero_of _ _ (fun e he => (isStopEv_not_message e (stopsOf_stopEv _ e he)).2.1)]
  rfl

theorem finalize_no_msgstart (st : SState) :
    (finalize st).countP isMessageStart = 0 := by
  rw [finalize_eq, List.countP_append]
  rw [countP_zero_of _ _ (fun e he => (isStopEv_not_message e (stopsOf_stopEv _ e he)).2.2)]
  rfl

/-- C1 witness: a single content frame with backend usage, then the
sentinel — the run finishes with exactly one `message_stop`. -/
theorem c1_witness :
    (doneStream [usageTextFrame "hi" 3 7] []).outcome = Outcome.finished ∧
    (doneStream [usageTextFrame "hi" 3 7] []).events.countP isMessageStop = 1 :=
  ⟨(c1_finalization [usageTextFrame "hi" 3 7] [] (by decide)).1,
   (c1_finalization [usageTextFrame "hi" 3 7] [] (by decide)).2.2.2.1⟩

/-- One tool-call fragment at index 1 (test input). -/
def toolFrag1 : ToolCallFrag :=
  { index := some 1, id := "t1", name := "f", arguments := some "ab" }

/-- A frame carrying one tool-call fragment at index 1 (test input). -/
def toolFrame1 : Frame :=
  { error := none, usage := none, delta := some { tool_calls := some [toolFrag1], content := none, reasoning := none } }

-- ==================== CLAIM C2 ====================

/-- C2 counterexample, refuting two parts of the original claim: (a) a
backend stream consisting of the bare sentinel produces a
`message_delta` and a `message_stop` but no `message_start`, so the
output is not bracketed by exactly one `message_start`/`message_stop`
pair; (b) a text frame followed by a tool call at index 1 opens a text
block at index 0 (one `content_block_start`) that never receives a
`content_block_stop`, while index 1 gets one — finalization with a tool
call seen stops only the tool accumulator indices — so a started block
is not always stopped exactly once. -/
theorem c2_counterexample :
    ((runStream [Line.done]).events.countP isMessageStop = 1 ∧
      (runStream [Line.done]).events.countP isMessageStart = 0 ∧
      (runStream [Line.done]).events ≠ []) ∧
    ((runStream [Line.frame (textFrame "hi"), Line.frame toolFrame1,
        Line.done]).events.countP (isStartFor 0) = 1 ∧
      (runStream [Line.frame (textFrame "hi"), Line.frame toolFrame1,
        Line.done]).events.countP (isStopFor 0) = 0 ∧
      (runStream [Line.frame (textFrame "hi"), Line.frame toolFrame1,
        Line.done]).events.countP (isStopFor 1) = 1) := by
  decide

/-- C2 (amended): for every error-free frame sequence terminated by the
sentinel, the emitted events are block-well-framed — every
`content_block_delta`'s index has a prior `content_block_start` and no
prior `content_block_stop`, so all of a block's deltas precede its
stop, and each index is stopped at most once (a started block can end
unstopped when a tool call was seen); exactly one `message_stop` is
emitted, as the last event; and a `message_start` is emitted (exactly
once, as the first event) iff at least one frame preceded the sentinel
— with no frames, finalization still runs and `message_stop` appears
without any `message_start`. -/
theorem c2_block_framing (fs : List Frame) (herr : ∀ f ∈ fs, f.error = none) :
    blocksWF (doneStream fs []).events [] [] = true ∧
    (doneStream fs []).events.countP isMessageStop = 1 ∧
    (doneStream fs []).events.getLast? = some SSEvent.message_stop ∧
    (doneStream fs []).events.countP isMessageStart = (if fs.isEmpty then 0 else 1) ∧
    (fs.isEmpty = false →
      (doneStream fs []).events.head? = some SSEvent.message_start) := by
  have hsplit := runLines_split fs initState false [] herr
  have hframes := rf_startOrDelta fs initState
  have hinv := rf_invariant fs initState [] (by simp [keysOf, initState])
    (by simp [keysOf, initState]) (by simp [initState])
  have hevents : (doneStream fs []).events =
      ((if fs.isEmpty then [] else [SSEvent.message_start, SSEvent.ping])
        ++ (runFrames initState fs).2) ++ finalize (finalSt fs) := by
    show (runLines initState false (fs.map Line.frame ++ Line.done :: [])).events = _
    rw [hsplit]
    show (if (false || fs.isEmpty) = true then ([] : List SSEvent) else _) ++ _ ++ _ = _
    rw [Bool.false_or]
    rfl
  have hopenA : startedAfter (if fs.isEmpty then ([] : List SSEvent) else
      [SSEvent.message_start, SSEvent.ping]) [] = [] := by
    by_cases hf : fs.isEmpty <;> simp [hf, startedAfter, evKind]
  have hopenB : stoppedAfter (if fs.isEmpty then ([] : List SSEvent) else
      [SSEvent.message_start, SSEvent.ping]) [] = [] := by
    by_cases hf : fs.isEmpty <;> simp [hf, stoppedAfter, evKind]
  have hopenWF : blocksWF (if fs.isEmpty then ([] : List SSEvent) else
      [SSEvent.message_start, SSEvent.ping]) [] [] = true := by
    by_cases hf : fs.isEmpty <;> simp [hf, blocksWF, evKind]
  have hnostopB : stoppedAfter (runFrames initState fs).2 [] = [] := by
    refine stoppedAfter_of_no_stops _ _ (fun e he => ?_)
    have h1 := hframes e he
    exact (isStartOrDelta_not e h1).2.2.2.1
  have hfr0 : ∀ p : SSEvent → Bool, (∀ e, isStartOrDelta e = true → p e = false) →
      (runFrames initState fs).2.countP p = 0 := by
    intro p hp
    exact countP_zero_of _ _ (fun e he => hp e (hframes e he))
  have hfin0 : ∀ p : SSEvent → Bool, (∀ e, isStopEv e = true → p e = false) →
      p (SSEvent.message_delta (stopReasonOf (finalSt fs)) (outTokensOf (finalSt fs)))
        = false →
      p SSEvent.message_stop = false →
      (finalize (finalSt fs)).countP p = 0 := by
    intro p hp hmd hms
    rw [finalize_eq, List.countP_append]
    rw [countP_zero_of _ _ (fun e he => hp e (stopsOf_stopEv _ e he))]
    simp [List.countP_cons, hmd, hms]
  refine ⟨?_, ?_, ?_, ?_, ?_⟩
  · rw [hevents, blocksWF_append, Bool.and_eq_true]
    constructor
    · rw [blocksWF_append, Bool.and_eq_true]
      constructor
      · exact hopenWF
      · rw [hopenA, hopenB]
        exact hinv.2.2.2.1
    · rw [startedAfter_append, stoppedAfter_append, hopenA, hopenB, hnostopB]
      exact finalize_blocksWF (finalSt fs) _ hinv.1 hinv.2.1 hinv.2.2.1
  · rw [hevents]
    simp only [List.countP_append]
    rw [hfr0 _ (fun e he => (isStartOrDelta_not e he).2.1), finalize_count_mstop]
    by_cases hf : fs.isEmpty <;> simp [hf, List.countP_cons, isMessageStop]
  · rw [hevents]
    rw [finalize_eq]
    rw [show ((if fs.isEmpty then ([] : List SSEvent) else
          [SSEvent.message_start, SSEvent.ping]) ++ (runFrames initState fs).2)
        ++ (stopsOf (finalSt fs)
            ++ [SSEvent.message_delta (stopReasonOf (finalSt fs))
                  (outTokensOf (finalSt fs)), SSEvent.message_stop])
      = (((if fs.isEmpty then [] else [SSEvent.message_start, SSEvent.ping])
          ++ (runFrames initState fs).2 ++ stopsOf (finalSt fs)
          ++ [SSEvent.message_delta (stopReasonOf (finalSt fs))
                (outTokensOf (finalSt fs))]) ++ [SSEvent.message_stop]) by
        simp [List.append_assoc]]
    exact List.getLast?_concat _
  · rw [hevents]
    simp only [List.countP_append]
    rw [hfr0 _ (fun e he => (isStartOrDelta_not e he).2.2.1),
      hfin0 _ (fun e he => (isStopEv_not_message e he).2.2) rfl rfl]
    by_cases hf : fs.isEmpty <;> simp [hf, List.countP_cons, isMessageStart]
  · intro hf
    rw [hevents]
    simp [hf]

/-- C2 witness: a single text frame then the sentinel — the events are
block-well-framed and open with `message_start`. -/
theorem c2_witness :
    blocksWF (doneStream [textFrame "hi"] []).events [] [] = true ∧
    (doneStream [textFrame "hi"] []).events.head? = some SSEvent.message_start :=
  ⟨(c2_block_framing [textFrame "hi"] (by decide)).1,
   (c2_block_framing [textFrame "hi"] (by decide)).2.2.2.2 (by decide)⟩

-- ==================== CLAIM C4 ====================

/-- Lines on which `sendSuccessMessage` can never run: non-data lines,
lines that fail `JSON.parse`, and frames carrying an error field (thrown
before the stream is opened).  The sentinel is excluded: it triggers
finalization. -/
def noSuccessLine : Line → Bool
  | .skip => true
  | .malformed => true
  | .frame f => f.error.isSome
  | .done => false

theorem runLines_noSuccess (ls : List Line) : ∀ (st : SState) (opened : Bool),
    (∀ l ∈ ls, noSuccessLine l = true) →
    (runLines st opened ls).events = [] ∧ (runLines st opened ls).opened = opened := by
  induction ls with
  | nil =>
      intro st opened _
      exact ⟨rfl, rfl⟩
  | cons l rest ih =>
      intro st opened h
      have hl := h l (List.mem_cons_self l rest)
      cases l with
      | skip =>
          simp only [runLines]
          exact ih st opened (fun x hx => h x (List.mem_cons_of_mem _ hx))
      | done => simp [noSuccessLine] at hl
      | malformed => exact ⟨rfl, rfl⟩
      | frame f =>
          rw [noSuccessLine] at hl
          simp [runLines, hl]

theorem pf_no_msgstart (st : SState) (f : Frame) :
    (processFrame st f).2.countP isMessageStart = 0 :=
  countP_zero_of _ _ (fun e he => (isStartOrDelta_not e (pf_startOrDelta st f e he)).2.2.1)

theorem runLines_msgstart_le (ls : List Line) : ∀ (st : SState) (opened : Bool),
    (runLines st opened ls).events.countP isMessageStart ≤ (if opened then 0 else 1) := by
  induction ls with
  | nil =>
      intro st opened
      simp [runLines]
  | cons l rest ih =>
      intro st opened
      cases l with
      | skip =>
          simp only [runLines]
          exact ih st opened
      | done =>
          simp only [runLines]
          rw [finalize_no_msgstart]
          simp
      | malformed =>
          simp only [runLines]
          simp
      | frame f =>
          cases he : f.error.isSome with
          | true =>
              simp [runLines, he]
          | false =>
              simp only [runLines, he, Bool.false_eq_true, if_false,
                List.countP_append]
              have hr := ih (processFrame st f).1 true
              rw [if_pos rfl] at hr
              have hr0 : (runLines (processFrame st f).1 true rest).events.countP
                  isMessageStart = 0 := Nat.le_zero.mp hr
              rw [pf_no_msgstart, hr0]
              cases opened
              · simp [List.countP_cons, isMessageStart]
              · simp

/-- C4 counterexample: a purely structural frame (no content, reasoning,
tool calls or usage) still opens the stream — `sendSuccessMessage` runs
on every successfully parsed frame, emitting `message_start` and `ping`. -/
theorem c4_counterexample :
    (runStream [Line.frame emptyFrame]).events
      = [SSEvent.message_start, SSEvent.ping] ∧
    (runStream [Line.frame emptyFrame]).opened = true := by
  decide

/-- C4 (amended): `message_start` (followed by one `ping`) is emitted on
the first successfully parsed data frame whether or not it carries
content; lines that are non-data, fail to parse, or carry an error field
never open the stream, so a fatal condition before any successful parse
yields no partial output (the route then replies with a single clean
JSON 500); and `message_start` is emitted at most once per run. -/
theorem c4_lazy_open :
    (∀ ls : List Line, (∀ l ∈ ls, noSuccessLine l = true) →
      (runStream ls).events = [] ∧ (runStream ls).opened = false) ∧
    (∀ (f : Frame) (rest : List Line), f.error = none →
      ∃ tail, (runStream (Line.frame f :: rest)).events
        = SSEvent.message_start :: SSEvent.ping :: tail) ∧
    (∀ ls : List Line, (runStream ls).events.countP isMessageStart ≤ 1) := by
  refine ⟨?_, ?_, ?_⟩
  · intro ls h
    exact ⟨(runLines_noSuccess ls initState false h).1,
      (runLines_noSuccess ls initState false h).2⟩
  · intro f rest hf
    refine ⟨(processFrame initState f).2
      ++ (runLines (processFrame initState f).1 true rest).events, ?_⟩
    show (runLines initState false (Line.frame f :: rest)).events = _
    simp [runLines, hf]
  · intro ls
    have h := runLines_msgstart_le ls initState false
    rw [if_neg (by simp)] at h
    exact h

/-- C4 witness: a malformed first line yields no output at all, and a
structural frame opens the stream at once. -/
theorem c4_witness :
    (runStream [Line.malformed]).events = [] ∧
    (∃ tail, (runStream [Line.frame emptyFrame]).events
      = SSEvent.message_start :: SSEvent.ping :: tail) :=
  ⟨(c4_lazy_open.1 [Line.malformed] (by decide)).1,
   c4_lazy_open.2.1 emptyFrame [] rfl⟩

-- ==================== CLAIM C7 ====================

/-- C7 counterexample: a backend that closes the connection (EOF) without
ever sending the sentinel makes the reader loop fall through silently —
the run outcome is the silent end-of-input, not an error/abort, and no
terminal event is emitted. -/
theorem c7_counterexample :
    (runStream [Line.frame (textFrame "hi")]).outcome = Outcome.eofEnd ∧
    Outcome.eofEnd ≠ Outcome.errored ∧
    (runStream [Line.frame (textFrame "hi")]).events.countP isMessageStop = 0 := by
  decide

/-- C7 (amended): on EOF without the sentinel the reader loop exits
silently: the outcome is the plain end-of-input (not an error surfaced to
the client), and no finalization event — no `content_block_stop`, no
`message_delta`, no `message_stop` — is emitted, so the closure is
distinguishable from a successful stream only by the missing
`message_stop`. -/
theorem c7_eof_silent (fs : List Frame) (herr : ∀ f ∈ fs, f.error = none) :
    (runStream (fs.map Line.frame)).outcome = Outcome.eofEnd ∧
    (runStream (fs.map Line.frame)).outcome ≠ Outcome.errored ∧
    (runStream (fs.map Line.frame)).events.countP isMessageStop = 0 ∧
    (runStream (fs.map Line.frame)).events.countP isMessageDelta = 0 ∧
    (runStream (fs.map Line.frame)).events.countP isStopEv = 0 := by
  have hsplit := runLines_eof fs initState false herr
  have hframes := rf_startOrDelta fs initState
  have hevents : (runStream (fs.map Line.frame)).events =
      (if fs.isEmpty then [] else [SSEvent.message_start, SSEvent.ping])
        ++ (runFrames initState fs).2 := by
    show (runLines initState false (fs.map Line.frame)).events = _
    rw [hsplit]
    show (if (false || fs.isEmpty) = true then ([] : List SSEvent) else _) ++ _ = _
    rw [Bool.false_or]
  have hcount : ∀ p : SSEvent → Bool, p SSEvent.message_start = false →
      p SSEvent.ping = false →
      (∀ e, isStartOrDelta e = true → p e = false) →
      (runStream (fs.map Line.frame)).events.countP p = 0 := by
    intro p h1 h2 hp
    rw [hevents, List.countP_append]
    rw [countP_zero_of _ _ (fun e he => hp e (hframes e he))]
    by_cases hf : fs.isEmpty <;> simp [hf, List.countP_cons, h1, h2]
  refine ⟨?_, ?_, ?_, ?_, ?_⟩
  · show (runLines initState false (fs.map Line.frame)).outcome = _
    rw [hsplit]
  · show (runLines initState false (fs.map Line.frame)).outcome ≠ _
    rw [hsplit]
    simp
  · exact hcount _ rfl rfl (fun e he => (isStartOrDelta_not e he).2.1)
  · exact hcount _ rfl rfl (fun e he => (isStartOrDelta_not e he).1)
  · exact hcount _ rfl rfl (fun e he => (isStartOrDelta_not e he).2.2.2.1)

/-- C7 witness: the silent-EOF behavior at a concrete one-frame stream. -/
theorem c7_witness :
    (runStream [Line.frame (textFrame "ok")]).outcome = Outcome.eofEnd ∧
    (runStream [Line.frame (textFrame "ok")]).events.countP isMessageDelta = 0 :=
  ⟨(c7_eof_silent [textFrame "ok"] (by decide)).1,
   (c7_eof_silent [textFrame "ok"] (by decide)).2.2.2.1⟩

-- ==================== CLAIM C3 ====================

/-- A cumulative argument sequence: each string extends the previous one
(the previous is a prefix, witnessed by the appended suffix). -/
def chainExt : String → List String → Prop
  | _, [] => True
  | s, a :: rest => (∃ u, s ++ u = a) ∧ chainExt a rest

theorem sappend_empty (s : String) : s ++ "" = s := by
  cases s with
  | mk d => show String.mk (d ++ []) = String.mk d
            rw [List.append_nil]

theorem empty_sappend (s : String) : "" ++ s = s := by
  cases s with
  | mk d => rfl

theorem sappend_assoc (a b c : String) : (a ++ b) ++ c = a ++ (b ++ c) := by
  cases a with
  | mk da =>
    cases b with
    | mk db =>
      cases c with
      | mk dc => show String.mk ((da ++ db) ++ dc) = String.mk (da ++ (db ++ dc))
                 rw [List.append_assoc]

theorem jdeltas_append (x y : List SSEvent) :
    jdeltas (x ++ y) = jdeltas x ++ jdeltas y := by
  induction x with
  | nil => simp [jdeltas, empty_sappend]
  | cons e rest ih =>
      cases e <;> simp [jdeltas, ih, sappend_assoc]

/-- One cumulative tool-argument step: if the stored value is a prefix of
the incoming cumulative value, the emitted json deltas extend the stored
value to exactly the incoming one, which becomes the new stored value. -/
theorem toolChainStep (st : SState) (ix : Option Nat) (idv nm a s0 u : String)
    (hl : lookupAcc st.toolCallAccumulators (ix.getD 0) = some s0)
    (hu : s0 ++ u = a) :
    s0 ++ jdeltas (processToolCall st
        { index := ix, id := idv, name := nm, arguments := some a }).2 = a ∧
    lookupAcc (processToolCall st
        { index := ix, id := idv, name := nm, arguments := some a }).1.toolCallAccumulators
      (ix.getD 0) = some a := by
  have h := processToolCall_old st
    { index := ix, id := idv, name := nm, arguments := some a } s0 hl
  by_cases hlen : s0.length < a.length
  · rw [if_pos (by simpa using hlen)] at h
    rw [h]
    constructor
    · simp only [jdeltas, sappend_empty, Option.getD_some]
      rw [← hu, jsSubstring_append]
    · simpa using lookupAcc_setAcc_self st.toolCallAccumulators (ix.getD 0) a
  · have hlen2 : a.length = s0.length + u.length := by
      rw [← hu, slength_append]
    have hu0 : u = "" := by
      rw [string_eq_empty_iff_data]
      have : u.length = 0 := by omega
      rwa [slength_data, List.length_eq_zero] at this
    have ha : a = s0 := by rw [← hu, hu0, sappend_empty]
    rw [if_neg (by simpa using hlen)] at h
    rw [h]
    subst ha
    refine ⟨?_, hl⟩
    simp [jdeltas, sappend_empty]

/-- The cumulative fold over a whole argument sequence. -/
theorem toolChainRun (args : List String) : ∀ (st : SState) (ix : Option Nat)
    (idv nm s0 : String),
    lookupAcc st.toolCallAccumulators (ix.getD 0) = some s0 →
    chainExt s0 args →
    s0 ++ jdeltas (processToolCalls st (args.map fun a =>
        { index := ix, id := idv, name := nm, arguments := some a })).2
      = args.getLastD s0 := by
  induction args with
  | nil =>
      intro st ix idv nm s0 _ _
      simp [processToolCalls, jdeltas, sappend_empty]
  | cons a rest ih =>
      intro st ix idv nm s0 hl hchain
      obtain ⟨⟨u, hu⟩, hchain'⟩ := hchain
      have hstep := toolChainStep st ix idv nm a s0 u hl hu
      simp only [List.map_cons, processToolCalls, List.getLastD_cons]
      rw [jdeltas_append, ← sappend_assoc, hstep.1]
      exact ih _ ix idv nm a hstep.2 hchain'

/-- C3: tool-call delta diffing.  (1) With a stored cumulative value for
an index, a step emits a `content_block_delta` iff the new cumulative
string is strictly longer, and the delta is exactly the suffix
`newArgs.substring(oldArgs.length)`; (2) that suffix is exactly the
appended substring; (3) over any cumulative sequence (each string
extending the last) the emitted partial-json deltas concatenate, without
duplication, to exactly the final cumulative value. -/
theorem c3_tool_delta_diffing :
    (∀ (st : SState) (tc : ToolCallFrag) (old : String),
      lookupAcc st.toolCallAccumulators (tc.index.getD 0) = some old →
      ((processToolCall st tc).2 ≠ [] ↔ old.length < (tc.arguments.getD "").length) ∧
      (processToolCall st tc).2 =
        (if old.length < (tc.arguments.getD "").length then
          [SSEvent.content_block_delta_json (tc.index.getD 0)
              (jsSubstring (tc.arguments.getD "") old.length)]
         else [])) ∧
    (∀ old u : String, jsSubstring (old ++ u) old.length = u) ∧
    (∀ (st : SState) (ix : Option Nat) (idv nm : String) (args : List String)
      (s0 : String),
      lookupAcc st.toolCallAccumulators (ix.getD 0) = some s0 →
      chainExt s0 args →
      s0 ++ jdeltas (processToolCalls st (args.map fun a =>
          { index := ix, id := idv, name := nm, arguments := some a })).2
        = args.getLastD s0) := by
  refine ⟨?_, jsSubstring_append, ?_⟩
  · intro st tc old h
    have hshape := processToolCall_old st tc old h
    by_cases hlen : old.length < (tc.arguments.getD "").length
    · rw [if_pos hlen] at hshape
      rw [hshape, if_pos hlen]
      simp [hlen]
    · rw [if_neg hlen] at hshape
      rw [hshape, if_neg hlen]
      simp [hlen]
  · intro st ix idv nm args s0 hl hchain
    exact toolChainRun args st ix idv nm s0 hl hchain

/-- C3 witness: the spec's example — cumulative frames `"{"`,
`"{\"a\":1"`, `"{\"a\":1}"` at index 0 concatenate back to the full
argument string with no duplication. -/
theorem c3_witness :
    "" ++ jdeltas (processToolCalls ⟨"", "", none, false, false, [(0, "")]⟩
        (["\x7b", "\x7b\"a\":1", "\x7b\"a\":1\x7d"].map fun a =>
          { index := some 0, id := "t", name := "w", arguments := some a })).2
      = "\x7b\"a\":1\x7d" := by
  have h := c3_tool_delta_diffing.2.2 ⟨"", "", none, false, false, [(0, "")]⟩
    (some 0) "t" "w" ["\x7b", "\x7b\"a\":1", "\x7b\"a\":1\x7d"] "" rfl
    ⟨⟨"\x7b", rfl⟩, ⟨"\"a\":1", rfl⟩, ⟨"\x7d", rfl⟩, trivial⟩
  simpa using h

-- ==================== CLAIM C8 ====================

/-- C8: in the non-streaming translator, backend-supplied usage counts
are used verbatim; otherwise input_tokens is the sum of the space-split
word counts of all translated outbound messages and output_tokens is the
space-split word count of the response text (the deliberate
non-tokenizer fallback). -/
theorem c8_usage_fallback :
    (∀ (parse : String → Option JSON) (freshId modelName : String)
      (msgs : List OpenAIMessage) (data : OpenAIResponse)
      (resp : AnthropicResponse) (u : OAUsage),
      translateNonStream parse freshId modelName msgs data = .ok resp →
      data.usage = some u →
      resp.usage.input_tokens = u.prompt_tokens ∧
      resp.usage.output_tokens = u.completion_tokens) ∧
    (∀ (parse : String → Option JSON) (freshId modelName : String)
      (msgs : List OpenAIMessage) (data : OpenAIResponse)
      (resp : AnthropicResponse) (c : RespChoice) (rest : List RespChoice),
      translateNonStream parse freshId modelName msgs data = .ok resp →
      data.usage = none →
      data.choices = c :: rest →
      resp.usage.input_tokens =
        msgs.foldl (fun acc m => acc + optWordCount m.content) 0 ∧
      resp.usage.output_tokens = optWordCount c.message.content) := by
  constructor
  · intro parse freshId modelName msgs data resp u h hu
    cases hde : data.error with
    | some m =>
        simp [translateNonStream, hde] at h
    | none =>
        cases hch : data.choices with
        | nil =>
            simp [translateNonStream, hde, hch] at h
        | cons c rest =>
            cases htb : toolUseBlocks parse (c.message.tool_calls.getD []) with
            | error e =>
                simp [translateNonStream, hde, hch, htb] at h
            | ok tbs =>
                simp only [translateNonStream, hde, hch, htb] at h
                simp only [bind, Except.bind, pure, Except.pure,
                  Except.ok.injEq] at h
                rw [← h]
                simp [hu]
  · intro parse freshId modelName msgs data resp c rest h hu hch
    cases hde : data.error with
    | some m =>
        simp [translateNonStream, hde] at h
    | none =>
        cases htb : toolUseBlocks parse (c.message.tool_calls.getD []) with
        | error e =>
            simp [translateNonStream, hde, hch, htb] at h
        | ok tbs =>
            simp only [translateNonStream, hde, hch, htb] at h
            simp only [bind, Except.bind, pure, Except.pure,
              Except.ok.injEq] at h
            rw [← h]
            simp [hu]

/-- A complete backend response with usage counts (test input). -/
def wDataUsage : OpenAIResponse :=
  { id := none
    error := none
    choices := [{ finish_reason := some "stop", message := { content := some "Hi", tool_calls := none } }]
    usage := some { prompt_tokens := 3, completion_tokens := 7 } }

/-- The same response without usage counts (test input). -/
def wDataNoUsage : OpenAIResponse :=
  { id := none
    error := none
    choices := [{ finish_reason := some "stop", message := { content := some "Hello there world", tool_calls := none } }]
    usage := none }

/-- C8 witness: concrete translations through both usage branches —
backend counts 3/7 verbatim, and the fallback counting "a b" (2 words)
in and "Hello there world" (3 words) out. -/
theorem c8_witness :
    (∀ resp, translateNonStream (fun _ => none) "m" "mod" [] wDataUsage = .ok resp →
      resp.usage.input_tokens = 3 ∧ resp.usage.output_tokens = 7) ∧
    (∀ resp, translateNonStream (fun _ => none) "m" "mod"
        [{ role := "user", content := some "a b" }] wDataNoUsage = .ok resp →
      resp.usage.input_tokens = 2 ∧ resp.usage.output_tokens = 3) := by
  constructor
  · intro resp h
    have := c8_usage_fallback.1 (fun _ => none) "m" "mod" [] wDataUsage resp
      { prompt_tokens := 3, completion_tokens := 7 } h rfl
    exact this
  · intro resp h
    have := c8_usage_fallback.2 (fun _ => none) "m" "mod"
      [{ role := "user", content := some "a b" }] wDataNoUsage resp
      { finish_reason := some "stop", message := { content := some "Hello there world", tool_calls := none } }
      [] h rfl rfl
    refine ⟨?_, ?_⟩
    · rw [this.1]
      decide
    · rw [this.2]
      decide

-- ==================== CLAIM C5 ====================

theorem san_atomic (j : JSON) (h : atomicJ j = true) : removeUriFormat j = j := by
  cases j with
  | null => simp [removeUriFormat]
  | bool b => simp [removeUriFormat]
  | num n => simp [removeUriFormat]
  | str t => simp [removeUriFormat]
  | arr xs => simp [atomicJ] at h
  | obj fields => simp [atomicJ] at h

theorem sanProps_atomic_nn (j : JSON) (h : atomicJ j = true)
    (hn : isNullJ j = false) : sanProps j = j := by
  cases j with
  | null => simp [isNullJ] at hn
  | bool b => simp [sanProps]
  | num n => simp [sanProps]
  | str t => simp [sanProps]
  | arr xs => simp [atomicJ] at h
  | obj fields => simp [atomicJ] at h

theorem containsUri_atomic (j : JSON) (h : atomicJ j = true) :
    containsUri j = false := by
  cases j with
  | null => simp [containsUri]
  | bool b => simp [containsUri]
  | num n => simp [containsUri]
  | str t => simp [containsUri]
  | arr xs => simp [atomicJ] at h
  | obj fields => simp [atomicJ] at h

theorem jlookup_filter_ne (l : List (String × JSON)) (k : String) :
    jlookup (l.filter fun p => p.1 ≠ k) k = none := by
  induction l with
  | nil => rfl
  | cons p rest ih =>
      by_cases hp : p.1 = k
      · rw [List.filter_cons, if_neg (by simp [hp])]
        exact ih
      · rw [List.filter_cons, if_pos (by simp [hp]), jlookup, if_neg hp]
        exact ih

theorem jlookup_sanFields (l : List (String × JSON)) (k : String) :
    jlookup (sanFields l) k = (jlookup l k).map
      (fun v => if k = "properties" then sanProps v else removeUriFormat v) := by
  induction l with
  | nil => simp [sanFields, jlookup]
  | cons p rest ih =>
      obtain ⟨pk, pv⟩ := p
      by_cases hp : pk = k
      · subst hp
        simp [sanFields, jlookup]
      · simp [sanFields, jlookup, hp, ih]

theorem jlookup_sanPropFields (l : List (String × JSON)) (k : String) :
    jlookup (sanPropFields l) k = (jlookup l k).map removeUriFormat := by
  induction l with
  | nil => simp [sanPropFields, jlookup]
  | cons p rest ih =>
      obtain ⟨pk, pv⟩ := p
      by_cases hp : pk = k
      · subst hp
        simp [sanPropFields, jlookup]
      · simp [sanPropFields, jlookup, hp, ih]

theorem isStrVal_map_san (v : Option JSON) (s : String) :
    isStrVal (v.map removeUriFormat) s = isStrVal v s := by
  cases v with
  | none => rfl
  | some j =>
      rw [Option.map_some']
      cases j with
      | obj fields =>
          by_cases hc : isUriObj fields = true
          · rw [show removeUriFormat (JSON.obj fields)
                = JSON.obj (fields.filter fun p => p.1 ≠ "format") from by
              simp [removeUriFormat, hc]]
            rfl
          · rw [show removeUriFormat (JSON.obj fields)
                = JSON.obj (sanFields fields) from by
              simp [removeUriFormat, hc]]
            rfl
      | arr xs =>
          rw [show removeUriFormat (JSON.arr xs) = JSON.arr (sanList xs) from by
            simp [removeUriFormat]]
          rfl
      | null =>
          rw [show removeUriFormat JSON.null = JSON.null from by
            simp [removeUriFormat]]
      | bool b =>
          rw [show removeUriFormat (JSON.bool b) = JSON.bool b from by
            simp [removeUriFormat]]
      | num n =>
          rw [show removeUriFormat (JSON.num n) = JSON.num n from by
            simp [removeUriFormat]]
      | str t =>
          rw [show removeUriFormat (JSON.str t) = JSON.str t from by
            simp [removeUriFormat]]

theorem isStrVal_map_sanProps (v : Option JSON) (s : String) :
    isStrVal (v.map sanProps) s = isStrVal v s := by
  cases v with
  | none => rfl
  | some j =>
      rw [Option.map_some']
      cases j with
      | obj fs =>
          rw [show sanProps (JSON.obj fs) = JSON.obj (sanPropFields fs) from by
            simp [sanProps]]
          rfl
      | arr xs =>
          rw [show sanProps (JSON.arr xs)
              = JSON.obj (indexFields 0 (sanList xs)) from by simp [sanProps]]
          rfl
      | null =>
          rw [show sanProps JSON.null = JSON.obj [] from by simp [sanProps]]
          rfl
      | bool b =>
          rw [show sanProps (JSON.bool b) = JSON.bool b from by simp [sanProps]]
      | num n =>
          rw [show sanProps (JSON.num n) = JSON.num n from by simp [sanProps]]
      | str t =>
          rw [show sanProps (JSON.str t) = JSON.str t from by simp [sanProps]]

theorem isUriObj_sanFields (l : List (String × JSON)) :
    isUriObj (sanFields l) = isUriObj l := by
  rw [isUriObj, isUriObj, jlookup_sanFields, jlookup_sanFields]
  rw [show ((fun v => if "type" = "properties" then sanProps v
      else removeUriFormat v) : JSON → JSON) = removeUriFormat by
    funext v
    rw [if_neg (by decide)]]
  rw [show ((fun v => if "format" = "properties" then sanProps v
      else removeUriFormat v) : JSON → JSON) = removeUriFormat by
    funext v
    rw [if_neg (by decide)]]
  rw [isStrVal_map_san, isStrVal_map_san]

theorem isUriObj_sanPropFields (l : List (String × JSON)) :
    isUriObj (sanPropFields l) = isUriObj l := by
  rw [isUriObj, isUriObj, jlookup_sanPropFields, jlookup_sanPropFields,
    isStrVal_map_san, isStrVal_map_san]

theorem uriFieldsOk_mem_atomic (l : List (String × JSON))
    (h : uriFieldsOk l = true) : ∀ p ∈ l, atomicJ p.2 = true := by
  induction l with
  | nil => intro p hp; exact absurd hp (List.not_mem_nil p)
  | cons q rest ih =>
      obtain ⟨qk, qv⟩ := q
      simp only [uriFieldsOk, Bool.and_eq_true] at h
      intro p hp
      rcases List.mem_cons.mp hp with rfl | hp
      · rcases h.1 with h1
        by_cases hq : qk = "properties"
        · rw [if_pos hq, Bool.and_eq_true] at h1
          exact h1.1
        · rw [if_neg hq] at h1
          exact h1
      · exact ih h.2 p hp

theorem sanFields_of_uriFieldsOk (l : List (String × JSON))
    (h : uriFieldsOk l = true) : sanFields l = l := by
  induction l with
  | nil => rfl
  | cons p rest ih =>
      obtain ⟨pk, pv⟩ := p
      simp only [uriFieldsOk, Bool.and_eq_true] at h
      simp only [sanFields]
      by_cases hp : pk = "properties"
      · rw [if_pos hp] at h ⊢
        obtain ⟨h1, h2⟩ := h
        rw [Bool.and_eq_true] at h1
        have hn : isNullJ pv = false := by
          have h3 := h1.2
          cases hx : isNullJ pv
          · rfl
          · rw [hx] at h3
            exact absurd h3 (by simp)
        rw [sanProps_atomic_nn pv h1.1 hn, ih h2]
      · rw [if_neg hp] at h ⊢
        rw [san_atomic pv h.1, ih h.2]

theorem uriFieldsOk_filter (l : List (String × JSON))
    (p : String × JSON → Bool) (h : uriFieldsOk l = true) :
    uriFieldsOk (l.filter p) = true := by
  induction l with
  | nil => rfl
  | cons q rest ih =>
      obtain ⟨qk, qv⟩ := q
      simp only [uriFieldsOk, Bool.and_eq_true] at h
      rw [List.filter_cons]
      by_cases hq : p (qk, qv) = true
      · rw [if_pos hq]
        simp only [uriFieldsOk, Bool.and_eq_true]
        exact ⟨h.1, ih h.2⟩
      · rw [if_neg hq]
        exact ih h.2

theorem containsUriFields_of_uriFieldsOk (l : List (String × JSON))
    (h : uriFieldsOk l = true) : containsUriFields l = false := by
  induction l with
  | nil => rfl
  | cons p rest ih =>
      obtain ⟨pk, pv⟩ := p
      simp only [containsUriFields]
      rw [containsUri_atomic pv
        (uriFieldsOk_mem_atomic _ h (pk, pv) (List.mem_cons_self _ rest))]
      simp only [uriFieldsOk, Bool.and_eq_true] at h
      rw [ih h.2]
      rfl

theorem uriOkList_mem (xs : List JSON) (h : uriOkList xs = true) :
    ∀ e ∈ xs, uriOk e = true := by
  induction xs with
  | nil => intro e he; exact absurd he (List.not_mem_nil e)
  | cons x rest ih =>
      simp only [uriOkList, Bool.and_eq_true] at h
      intro e he
      rcases List.mem_cons.mp he with rfl | he
      · exact h.1
      · exact ih h.2 e he

theorem uriOkValues_mem (l : List (String × JSON)) (h : uriOkValues l = true) :
    ∀ p ∈ l, uriOk p.2 = true := by
  induction l with
  | nil => intro p hp; exact absurd hp (List.not_mem_nil p)
  | cons q rest ih =>
      obtain ⟨qk, qv⟩ := q
      simp only [uriOkValues, Bool.and_eq_true] at h
      intro p hp
      rcases List.mem_cons.mp hp with rfl | hp
      · exact h.1
      · exact ih h.2 p hp

theorem uriOkFields_mem (l : List (String × JSON)) (h : uriOkFields l = true) :
    ∀ p ∈ l, (if p.1 = "properties" then uriOkProps p.2 else uriOk p.2) = true := by
  induction l with
  | nil => intro p hp; exact absurd hp (List.not_mem_nil p)
  | cons q rest ih =>
      obtain ⟨qk, qv⟩ := q
      simp only [uriOkFields, Bool.and_eq_true] at h
      intro p hp
      rcases List.mem_cons.mp hp with rfl | hp
      · exact h.1
      · exact ih h.2 p hp

theorem sanList_idem_of (xs : List JSON)
    (h : ∀ e ∈ xs, removeUriFormat (removeUriFormat e) = removeUriFormat e) :
    sanList (sanList xs) = sanList xs := by
  induction xs with
  | nil => rfl
  | cons x rest ih =>
      simp only [sanList]
      rw [h x (List.mem_cons_self x rest),
        ih (fun e he => h e (List.mem_cons_of_mem x he))]

theorem containsUriList_san_of (xs : List JSON)
    (h : ∀ e ∈ xs, containsUri (removeUriFormat e) = false) :
    containsUriList (sanList xs) = false := by
  induction xs with
  | nil => rfl
  | cons x rest ih =>
      simp only [sanList, containsUriList]
      rw [h x (List.mem_cons_self x rest),
        ih (fun e he => h e (List.mem_cons_of_mem x he))]
      rfl

theorem sanPropFields_idem_of (l : List (String × JSON))
    (h : ∀ p ∈ l, removeUriFormat (removeUriFormat p.2) = removeUriFormat p.2) :
    sanPropFields (sanPropFields l) = sanPropFields l := by
  induction l with
  | nil => rfl
  | cons q rest ih =>
      obtain ⟨qk, qv⟩ := q
      simp only [sanPropFields]
      rw [h (qk, qv) (List.mem_cons_self _ rest),
        ih (fun p hp => h p (List.mem_cons_of_mem _ hp))]

theorem containsUriFields_sanPropFields_of (l : List (String × JSON))
    (h : ∀ p ∈ l, containsUri (removeUriFormat p.2) = false) :
    containsUriFields (sanPropFields l) = false := by
  induction l with
  | nil => rfl
  | cons q rest ih =>
      obtain ⟨qk, qv⟩ := q
      simp only [sanPropFields, containsUriFields]
      rw [h (qk, qv) (List.mem_cons_self _ rest),
        ih (fun p hp => h p (List.mem_cons_of_mem _ hp))]
      rfl

theorem sanFields_idem_of (l : List (String × JSON))
    (h : ∀ p ∈ l, (p.1 = "properties" → sanProps (sanProps p.2) = sanProps p.2) ∧
      (p.1 ≠ "properties" →
        removeUriFormat (removeUriFormat p.2) = removeUriFormat p.2)) :
    sanFields (sanFields l) = sanFields l := by
  induction l with
  | nil => rfl
  | cons q rest ih =>
      obtain ⟨qk, qv⟩ := q
      simp only [sanFields]
      have hq := h (qk, qv) (List.mem_cons_self _ rest)
      by_cases hp : qk = "properties"
      · rw [if_pos hp, if_pos hp, hq.1 hp,
          ih (fun p hp2 => h p (List.mem_cons_of_mem _ hp2))]
      · rw [if_neg hp, if_neg hp, hq.2 hp,
          ih (fun p hp2 => h p (List.mem_cons_of_mem _ hp2))]

theorem containsUriFields_sanFields_of (l : List (String × JSON))
    (h : ∀ p ∈ l, (p.1 = "properties" → containsUri (sanProps p.2) = false) ∧
      (p.1 ≠ "properties" → containsUri (removeUriFormat p.2) = false)) :
    containsUriFields (sanFields l) = false := by
  induction l with
  | nil => rfl
  | cons q rest ih =>
      obtain ⟨qk, qv⟩ := q
      simp only [sanFields, containsUriFields]
      have hq := h (qk, qv) (List.mem_cons_self _ rest)
      by_cases hp : qk = "properties"
      · rw [if_pos hp, hq.1 hp,
          ih (fun p hp2 => h p (List.mem_cons_of_mem _ hp2))]
        rfl
      · rw [if_neg hp, hq.2 hp,
          ih (fun p hp2 => h p (List.mem_cons_of_mem _ hp2))]
        rfl

theorem sanPropFields_indexFields (zs : List JSON) : ∀ n : Nat,
    sanPropFields (indexFields n zs) = indexFields n (sanList zs) := by
  induction zs with
  | nil => intro n; rfl
  | cons z rest ih =>
      intro n
      simp only [indexFields, sanPropFields, sanList]
      rw [ih (n + 1)]

theorem sizeOf_pos_json (x : JSON) : 0 < sizeOf x := by
  cases x <;> simp_arith

theorem sanList_id_of (xs : List JSON)
    (h : ∀ e ∈ xs, removeUriFormat e = e) : sanList xs = xs := by
  induction xs with
  | nil => rfl
  | cons x rest ih =>
      simp only [sanList]
      rw [h x (List.mem_cons_self x rest),
        ih (fun e he => h e (List.mem_cons_of_mem x he))]

theorem sanPropFields_id_of (l : List (String × JSON))
    (h : ∀ p ∈ l, removeUriFormat p.2 = p.2) : sanPropFields l = l := by
  induction l with
  | nil => rfl
  | cons q rest ih =>
      obtain ⟨qk, qv⟩ := q
      simp only [sanPropFields]
      rw [h (qk, qv) (List.mem_cons_self _ rest),
        ih (fun p hp => h p (List.mem_cons_of_mem _ hp))]

theorem sanFields_id_of (l : List (String × JSON))
    (h : ∀ p ∈ l, (p.1 = "properties" → sanProps p.2 = p.2) ∧
      (p.1 ≠ "properties" → removeUriFormat p.2 = p.2)) : sanFields l = l := by
  induction l with
  | nil => rfl
  | cons q rest ih =>
      obtain ⟨qk, qv⟩ := q
      simp only [sanFields]
      have hq := h (qk, qv) (List.mem_cons_self _ rest)
      by_cases hp : qk = "properties"
      · rw [if_pos hp, hq.1 hp, ih (fun p hp2 => h p (List.mem_cons_of_mem _ hp2))]
      · rw [if_neg hp, hq.2 hp, ih (fun p hp2 => h p (List.mem_cons_of_mem _ hp2))]

theorem untouchedList_mem (xs : List JSON) (h : untouchedList xs = true) :
    ∀ e ∈ xs, untouched e = true := by
  induction xs with
  | nil => intro e he; exact absurd he (List.not_mem_nil e)
  | cons x rest ih =>
      simp only [untouchedList, Bool.and_eq_true] at h
      intro e he
      rcases List.mem_cons.mp he with rfl | he
      · exact h.1
      · exact ih h.2 e he

theorem untouchedPropFields_mem (l : List (String × JSON))
    (h : untouchedPropFields l = true) : ∀ p ∈ l, untouched p.2 = true := by
  induction l with
  | nil => intro p hp; exact absurd hp (List.not_mem_nil p)
  | cons q rest ih =>
      obtain ⟨qk, qv⟩ := q
      simp only [untouchedPropFields, Bool.and_eq_true] at h
      intro p hp
      rcases List.mem_cons.mp hp with rfl | hp
      · exact h.1
      · exact ih h.2 p hp

theorem untouchedFields_mem (l : List (String × JSON))
    (h : untouchedFields l = true) : ∀ p ∈ l,
    (if p.1 = "properties" then propsUntouched p.2 else untouched p.2) = true := by
  induction l with
  | nil => intro p hp; exact absurd hp (List.not_mem_nil p)
  | cons q rest ih =>
      obtain ⟨qk, qv⟩ := q
      simp only [untouchedFields, Bool.and_eq_true] at h
      intro p hp
      rcases List.mem_cons.mp hp with rfl | hp
      · exact h.1
      · exact ih h.2 p hp

theorem sizeOf_field_le (fields : List (String × JSON)) (n : Nat)
    (hsz : sizeOf (JSON.obj fields) ≤ n + 1) :
    ∀ p ∈ fields, sizeOf p.2 ≤ n := by
  intro p hp
  have h1 := List.sizeOf_lt_of_mem hp
  have h2 : sizeOf p.2 < sizeOf p := by
    obtain ⟨k, v⟩ := p
    simp
  have h3 : sizeOf (JSON.obj fields) = 1 + sizeOf fields := by
    simp
  omega

theorem sizeOf_elem_le (xs : List JSON) (n : Nat)
    (hsz : sizeOf (JSON.arr xs) ≤ n + 1) : ∀ e ∈ xs, sizeOf e ≤ n := by
  intro e he
  have h1 := List.sizeOf_lt_of_mem he
  have h3 : sizeOf (JSON.arr xs) = 1 + sizeOf xs := by
    simp
  omega

theorem san_obj_uri (l : List (String × JSON)) (h : isUriObj l = true) :
    removeUriFormat (JSON.obj l) = .obj (l.filter fun p => p.1 ≠ "format") := by
  simp [removeUriFormat, h]

theorem san_obj_gen (l : List (String × JSON)) (h : isUriObj l = false) :
    removeUriFormat (JSON.obj l) = .obj (sanFields l) := by
  simp [removeUriFormat, h]

theorem san_arr_eq (xs : List JSON) :
    removeUriFormat (JSON.arr xs) = .arr (sanList xs) := by
  simp [removeUriFormat]

theorem containsUri_obj_eq (l : List (String × JSON)) :
    containsUri (JSON.obj l) = (isUriObj l || containsUriFields l) := by
  simp [containsUri]

theorem containsUri_arr_eq (xs : List JSON) :
    containsUri (JSON.arr xs) = containsUriList xs := by
  simp [containsUri]

theorem sanProps_obj_eq (fs : List (String × JSON)) :
    sanProps (JSON.obj fs) = .obj (sanPropFields fs) := by
  simp [sanProps]

/-- Main induction: on `uriOk` schemas the sanitizer is idempotent and
removes every uri-format match at every depth. -/
theorem sanGood : ∀ (n : Nat) (x : JSON), sizeOf x ≤ n → uriOk x = true →
    removeUriFormat (removeUriFormat x) = removeUriFormat x ∧
    containsUri (removeUriFormat x) = false := by
  intro n
  induction n with
  | zero =>
      intro x hsz _
      exact absurd hsz (by have := sizeOf_pos_json x; omega)
  | succ n ih =>
      intro x hsz hok
      cases x with
      | null => exact ⟨by simp [removeUriFormat], by simp [removeUriFormat, containsUri]⟩
      | bool b => exact ⟨by simp [removeUriFormat], by simp [removeUriFormat, containsUri]⟩
      | num m => exact ⟨by simp [removeUriFormat], by simp [removeUriFormat, containsUri]⟩
      | str t => exact ⟨by simp [removeUriFormat], by simp [removeUriFormat, containsUri]⟩
      | arr xs =>
          have hxs := sizeOf_elem_le xs n hsz
          have hel : ∀ e ∈ xs, uriOk e = true :=
            uriOkList_mem xs (by simpa [uriOk] using hok)
          have hidem : ∀ e ∈ xs, removeUriFormat (removeUriFormat e) = removeUriFormat e :=
            fun e he => (ih e (hxs e he) (hel e he)).1
          have hcu : ∀ e ∈ xs, containsUri (removeUriFormat e) = false :=
            fun e he => (ih e (hxs e he) (hel e he)).2
          rw [san_arr_eq xs]
          constructor
          · rw [san_arr_eq (sanList xs), sanList_idem_of xs hidem]
          · rw [containsUri_arr_eq (sanList xs)]
            exact containsUriList_san_of xs hcu
      | obj fields =>
          have hflds := sizeOf_field_le fields n hsz
          by_cases hu : isUriObj fields = true
          · have hok2 : uriFieldsOk fields = true := by simpa [uriOk, hu] using hok
            have hfil : uriFieldsOk (fields.filter fun p => p.1 ≠ "format") = true :=
              uriFieldsOk_filter _ _ hok2
            have hnu : isUriObj (fields.filter fun p => p.1 ≠ "format") = false := by
              rw [isUriObj, jlookup_filter_ne]
              simp [isStrVal]
            rw [san_obj_uri fields hu]
            constructor
            · rw [san_obj_gen _ hnu, sanFields_of_uriFieldsOk _ hfil]
            · rw [containsUri_obj_eq, hnu, containsUriFields_of_uriFieldsOk _ hfil]
              rfl
          · have hok2 : uriOkFields fields = true := by simpa [uriOk, hu] using hok
            have hmem := uriOkFields_mem fields hok2
            have hprops : ∀ v, sizeOf v ≤ n → uriOkProps v = true →
                sanProps (sanProps v) = sanProps v ∧ containsUri (sanProps v) = false := by
              intro v hv hp
              cases v with
              | obj fs =>
                  have hfs := sizeOf_field_le fs (n - 1) (by
                    have := sizeOf_pos_json (JSON.obj fs)
                    omega)
                  have hfs2 : ∀ q ∈ fs, sizeOf q.2 ≤ n := by
                    intro q hq
                    have := hfs q hq
                    omega
                  simp only [uriOkProps, Bool.and_eq_true] at hp
                  have hnu2 : isUriObj fs = false := by
                    have h3 := hp.1
                    cases hx : isUriObj fs
                    · rfl
                    · rw [hx] at h3
                      exact absurd h3 (by simp)
                  have hvals : ∀ q ∈ fs, uriOk q.2 = true := uriOkValues_mem fs hp.2
                  have hidem2 : ∀ q ∈ fs,
                      removeUriFormat (removeUriFormat q.2) = removeUriFormat q.2 :=
                    fun q hq => (ih q.2 (hfs2 q hq) (hvals q hq)).1
                  have hcu2 : ∀ q ∈ fs, containsUri (removeUriFormat q.2) = false :=
                    fun q hq => (ih q.2 (hfs2 q hq) (hvals q hq)).2
                  constructor
                  · rw [sanProps_obj_eq fs, sanProps_obj_eq (sanPropFields fs),
                      sanPropFields_idem_of fs hidem2]
                  · rw [sanProps_obj_eq fs, containsUri_obj_eq,
                      isUriObj_sanPropFields, hnu2,
                      containsUriFields_sanPropFields_of fs hcu2]
                    rfl
              | arr xs => simp [uriOkProps] at hp
              | null => simp [uriOkProps] at hp
              | bool b => exact ⟨by simp [sanProps], by simp [sanProps, containsUri]⟩
              | num m => exact ⟨by simp [sanProps], by simp [sanProps, containsUri]⟩
              | str t => exact ⟨by simp [sanProps], by simp [sanProps, containsUri]⟩
            have hpoint : ∀ p ∈ fields,
                (p.1 = "properties" → sanProps (sanProps p.2) = sanProps p.2 ∧
                  containsUri (sanProps p.2) = false) ∧
                (p.1 ≠ "properties" →
                  removeUriFormat (removeUriFormat p.2) = removeUriFormat p.2 ∧
                  containsUri (removeUriFormat p.2) = false) := by
              intro p hp
              have hm := hmem p hp
              constructor
              · intro hk
                rw [if_pos hk] at hm
                exact hprops p.2 (hflds p hp) hm
              · intro hk
                rw [if_neg hk] at hm
                exact ih p.2 (hflds p hp) hm
            have hnu2 : isUriObj (sanFields fields) = false := by
              rw [isUriObj_sanFields]
              cases hx : isUriObj fields
              · rfl
              · exact absurd hx hu
            have hu2 : isUriObj fields = false := by
              cases hx : isUriObj fields
              · rfl
              · exact absurd hx hu
            rw [san_obj_gen fields hu2]
            constructor
            · rw [san_obj_gen _ hnu2, sanFields_idem_of fields (fun p hp =>
                ⟨fun hk => ((hpoint p hp).1 hk).1, fun hk => ((hpoint p hp).2 hk).1⟩)]
            · rw [containsUri_obj_eq, hnu2, containsUriFields_sanFields_of fields (fun p hp =>
                ⟨fun hk => ((hpoint p hp).1 hk).2, fun hk => ((hpoint p hp).2 hk).2⟩)]
              rfl

/-- Main induction: on `untouched` values the sanitizer is the identity. -/
theorem sanUntouched : ∀ (n : Nat) (x : JSON), sizeOf x ≤ n →
    untouched x = true → removeUriFormat x = x := by
  intro n
  induction n with
  | zero =>
      intro x hsz _
      exact absurd hsz (by have := sizeOf_pos_json x; omega)
  | succ n ih =>
      intro x hsz hok
      cases x with
      | null => simp [removeUriFormat]
      | bool b => simp [removeUriFormat]
      | num m => simp [removeUriFormat]
      | str t => simp [removeUriFormat]
      | arr xs =>
          have hxs := sizeOf_elem_le xs n hsz
          have hel : ∀ e ∈ xs, untouched e = true :=
            untouchedList_mem xs (by simpa [untouched] using hok)
          rw [san_arr_eq xs, sanList_id_of xs (fun e he => ih e (hxs e he) (hel e he))]
      | obj fields =>
          have hflds := sizeOf_field_le fields n hsz
          simp only [untouched, Bool.and_eq_true] at hok
          have hnu : isUriObj fields = false := by
            have h3 := hok.1
            cases hx : isUriObj fields
            · rfl
            · rw [hx] at h3
              exact absurd h3 (by simp)
          have hmem := untouchedFields_mem fields hok.2
          have hprops2 : ∀ v, sizeOf v ≤ n → propsUntouched v = true →
              sanProps v = v := by
            intro v hv hp
            cases v with
            | obj fs =>
                have hfs : ∀ q ∈ fs, sizeOf q.2 ≤ n := by
                  intro q hq
                  have := sizeOf_field_le fs (n - 1) (by
                    have := sizeOf_pos_json (JSON.obj fs)
                    omega) q hq
                  omega
                have hvals : ∀ q ∈ fs, untouched q.2 = true :=
                  untouchedPropFields_mem fs (by simpa [propsUntouched] using hp)
                rw [sanProps_obj_eq fs,
                  sanPropFields_id_of fs (fun q hq => ih q.2 (hfs q hq) (hvals q hq))]
            | arr xs => simp [propsUntouched] at hp
            | null => simp [propsUntouched] at hp
            | bool b => simp [sanProps]
            | num m => simp [sanProps]
            | str t => simp [sanProps]
          rw [san_obj_gen fields hnu, sanFields_id_of fields ?_]
          intro p hp
          have hm := hmem p hp
          constructor
          · intro hk
            rw [if_pos hk] at hm
            exact hprops2 p.2 (hflds p hp) hm
          · intro hk
            rw [if_neg hk] at hm
            exact ih p.2 (hflds p hp) hm

/-- The counterexample schema: an object matching the uri rule whose
`extra` member itself matches the uri rule. -/
def uriEx : JSON :=
  JSON.obj [("type", .str "string"), ("format", .str "uri"),
    ("extra", JSON.obj [("type", .str "string"), ("format", .str "uri")])]

/-- C5 counterexample: the sanitizer is not idempotent.  A uri-matching
object is returned with its remaining members unprocessed, so a uri
object nested inside one survives the first pass and is only stripped on
the second: one format key remains after one pass, none after two. -/
theorem c5_counterexample :
    removeUriFormat (removeUriFormat uriEx) ≠ removeUriFormat uriEx := by
  intro h
  have h2 := congrArg countFormat h
  have e1 : countFormat (removeUriFormat uriEx) = 1 := by
    simp [uriEx, removeUriFormat, isUriObj, jlookup, isStrVal, countFormat,
      countFormatFields, countFormatList]
  have e2 : countFormat (removeUriFormat (removeUriFormat uriEx)) = 0 := by
    simp [uriEx, removeUriFormat, sanFields, sanPropFields, sanProps, isUriObj,
      jlookup, isStrVal, countFormat, countFormatFields, countFormatList]
  rw [e1, e2] at h2
  exact Nat.noConfusion h2

/-- C5 (amended): on schemas where every uri-matching object has only
atomic members (non-null under a `properties` key) and no `properties`
map is itself shaped like the uri pattern, the sanitizer is idempotent
and removes the uri format match at every nesting depth; and on values
containing no uri-format object, whose `properties` members are objects
of such values or primitives, it changes nothing at all. -/
theorem c5_sanitizer :
    (∀ x : JSON, uriOk x = true →
      removeUriFormat (removeUriFormat x) = removeUriFormat x ∧
      containsUri (removeUriFormat x) = false) ∧
    (∀ x : JSON, untouched x = true → removeUriFormat x = x) := by
  constructor
  · intro x h
    exact sanGood (sizeOf x) x (le_refl _) h
  · intro x h
    exact sanUntouched (sizeOf x) x (le_refl _) h

/-- A well-behaved schema with uri members at several depths (witness input). -/
def wSchema : JSON :=
  JSON.obj [("type", .str "object"),
    ("properties", JSON.obj [
      ("homepage", JSON.obj [("type", .str "string"), ("format", .str "uri"),
        ("description", .str "a link")]),
      ("name", JSON.obj [("type", .str "string")])]),
    ("items", JSON.obj [("type", .str "string"), ("format", .str "uri")])]

/-- A schema with no uri-format object anywhere (witness input). -/
def wClean : JSON :=
  JSON.obj [("type", .str "object"),
    ("properties", JSON.obj [("name", JSON.obj [("type", .str "string")])])]

/-- C5 witness: the amended sanitizer properties at the concrete schemas. -/
theorem c5_witness :
    (removeUriFormat (removeUriFormat wSchema) = removeUriFormat wSchema ∧
      containsUri (removeUriFormat wSchema) = false) ∧
    removeUriFormat wClean = wClean :=
  ⟨c5_sanitizer.1 wSchema (by
      simp [wSchema, uriOk, uriOkFields, uriOkProps, uriOkValues, uriFieldsOk,
        isUriObj, jlookup, isStrVal, atomicJ, isNullJ]),
   c5_sanitizer.2 wClean (by
      simp [wClean, untouched, untouchedFields, propsUntouched,
        untouchedPropFields, isUriObj, jlookup, isStrVal])⟩

example :
    removeUriFormat
      (JSON.obj [("type", .str "string"), ("format", .str "uri")])
      = JSON.obj [("type", .str "string")] := by
  simp [removeUriFormat, isUriObj, jlookup, isStrVal]

example :
    removeUriFormat
      (JSON.obj [("properties",
        JSON.obj [("u", JSON.obj [("type", .str "string"), ("format", .str "uri")])])])
      = JSON.obj [("properties", JSON.obj [("u", JSON.obj [("type", .str "string")])])] := by
  simp [removeUriFormat, sanFields, sanProps, sanPropFields, isUriObj, jlookup, isStrVal]

end Cproxy
